import Mathlib

/-!
Verification of the food-message interpretation pipeline of the calorie
tracking bot (sources: nutrition_api.py, web_scraper.py, ai_food_parser.py,
telegram_bot.py, notion_integration.py).

Strings are modelled as `List Char`.  The Python regular expressions used by
the sources are small and fixed, so each one is embedded as a dedicated
matcher on `List Char` reproducing the leftmost-match / greedy semantics of
the original pattern.  Remote I/O (HTTP requests, JSON bodies, HTML text
extraction) is modelled by environment records: an environment field holds
the data the remote call would deliver, wrapped in `Except PyErr` so that a
raising remote call is representable; the embedded functions catch these
errors exactly where the Python code has `try/except`.  Numbers are `ℕ` for
Python ints produced by `int(...)` and `ℚ` for nutrition values.
-/

/-- Python exceptions, as far as the embedded code can surface them. -/
inductive PyErr where
  | keyError : List Char → PyErr
  | remote : PyErr
deriving DecidableEq, Repr

/-! ### Character classes (ASCII fragment actually exercised by the code) -/

/-- `\d` of Python regexes, on the ASCII range used by the program. -/
def isDigitB (c : Char) : Bool := decide (48 ≤ c.toNat ∧ c.toNat ≤ 57)

/-- `\s` of Python regexes (ASCII whitespace). -/
def isPyWs (c : Char) : Bool :=
  decide (c.toNat = 32 ∨ c.toNat = 9 ∨ c.toNat = 10 ∨ c.toNat = 13 ∨
          c.toNat = 11 ∨ c.toNat = 12)

/-- Lower-case ASCII letter. -/
def lcAlphaB (c : Char) : Bool := decide (97 ≤ c.toNat ∧ c.toNat ≤ 122)

/-- `str.lower()` on one character (ASCII case mapping). -/
def pyLower (c : Char) : Char :=
  if 65 ≤ c.toNat ∧ c.toNat ≤ 90 then Char.ofNat (c.toNat + 32) else c

/-- `str.lower()`. -/
def pyLowerL (l : List Char) : List Char := l.map pyLower

/-- `str.strip()`: drop leading and trailing whitespace. -/
def stripL (l : List Char) : List Char :=
  ((l.dropWhile isPyWs).reverse.dropWhile isPyWs).reverse

/-- `int(...)` on a string of decimal digits. -/
def digitsToNat (ds : List Char) : ℕ :=
  ds.foldl (fun a c => 10 * a + (c.toNat - 48)) 0

/-! ### Generic scanning combinators

`re.search` tries the pattern at every position from the left; `re.sub`
removes every non-overlapping match scanning from the left; `re.split`
cuts the string at every non-overlapping match.  `scanFirst` is structural;
`subAll`/`splitAllGo` advance past a match, so they carry fuel which the
wrappers instantiate with the length of the input (every matcher used here
consumes at least one character, so the fuel is never exhausted). -/

def scanFirst (f : List Char → Option α) : List Char → Option α
  | [] => none
  | c :: cs =>
    match f (c :: cs) with
    | some a => some a
    | none => scanFirst f cs

def subAll (f : List Char → Option (List Char)) : ℕ → List Char → List Char
  | _, [] => []
  | 0, l => l
  | n + 1, c :: cs =>
    match f (c :: cs) with
    | some r => subAll f n r
    | none => c :: subAll f n cs

def splitAllGo (f : List Char → Option (List Char)) :
    ℕ → List Char → List Char → List (List Char)
  | _, acc, [] => [acc.reverse]
  | 0, acc, l => [acc.reverse ++ l]
  | n + 1, acc, c :: cs =>
    match f (c :: cs) with
    | some r => acc.reverse :: splitAllGo f n [] r
    | none => splitAllGo f n (c :: acc) cs

/-! ### The concrete patterns of nutrition_api.py / ai_food_parser.py -/

/-- A match of `(\d+)\s*cals?` starting at the head of `l`, returning the
value of the digit group (nutrition_api.py line 28/86, ai_food_parser.py
line 245).  The digit run is greedy and, by backtracking, a match exists at
a position only if the maximal digit run there is followed by optional
whitespace and the literal `cal`. -/
def calAt (l : List Char) : Option ℕ :=
  let ds := l.takeWhile isDigitB
  if ds.isEmpty then none
  else
    let r2 := (l.dropWhile isDigitB).dropWhile isPyWs
    if ('c' :: 'a' :: 'l' :: []).isPrefixOf r2 then some (digitsToNat ds) else none

/-- First match of `(\d+)\s*cals?` anywhere in `l` (its digit group). -/
def searchCalNum (l : List Char) : Option ℕ := scanFirst calAt l

/-- A match of `\d+\s*cals?` at the head, returning the remainder after the
match (for `re.sub`, nutrition_api.py line 91).  The optional `s` is greedy. -/
def calTokAt (l : List Char) : Option (List Char) :=
  let ds := l.takeWhile isDigitB
  if ds.isEmpty then none
  else
    match (l.dropWhile isDigitB).dropWhile isPyWs with
    | 'c' :: 'a' :: 'l' :: 's' :: r => some r
    | 'c' :: 'a' :: 'l' :: r => some r
    | _ => none

/-- A match of `\(\d+\s*cals?\)` at the head (nutrition_api.py line 90);
the greedy optional `s` must be followed by `)` (with backtracking). -/
def parenCalAt (l : List Char) : Option (List Char) :=
  match l with
  | c0 :: r0 =>
    if c0 = '(' then
      let ds := r0.takeWhile isDigitB
      if ds.isEmpty then none
      else
        match (r0.dropWhile isDigitB).dropWhile isPyWs with
        | 'c' :: 'a' :: 'l' :: 's' :: ')' :: r => some r
        | 'c' :: 'a' :: 'l' :: ')' :: r => some r
        | _ => none
    else none
  | [] => none

/-- A match of `\s*&\s*` at the head (second alternative of the splitting
pattern, nutrition_api.py lines 78/113). -/
def sepAmp (l : List Char) : Option (List Char) :=
  match l.dropWhile isPyWs with
  | c :: r2 => if c = '&' then some (r2.dropWhile isPyWs) else none
  | [] => none

/-- A match of `\s+and\s+|\s*&\s*` at the head, returning the remainder
(for `re.split`, nutrition_api.py lines 78/113).  The alternative
`\s+and\s+` is tried first, exactly as in the Python pattern. -/
def sepAt (l : List Char) : Option (List Char) :=
  let w1 := l.takeWhile isPyWs
  let r1 := l.dropWhile isPyWs
  if !w1.isEmpty && ('a' :: 'n' :: 'd' :: []).isPrefixOf r1 then
    let r2 := r1.drop 3
    let w2 := r2.takeWhile isPyWs
    if !w2.isEmpty then some (r2.dropWhile isPyWs) else sepAmp l
  else sepAmp l

/-- `re.split(r'\s+and\s+|\s*&\s*', l)`. -/
def splitSep (l : List Char) : List (List Char) := splitAllGo sepAt l.length [] l

/-- `(\d+)-piece` at the head (first quantity pattern). -/
def qDashPiece (l : List Char) : Option (ℕ × List Char) :=
  let ds := l.takeWhile isDigitB
  if ds.isEmpty then none
  else
    match l.dropWhile isDigitB with
    | '-' :: 'p' :: 'i' :: 'e' :: 'c' :: 'e' :: r => some (digitsToNat ds, r)
    | _ => none

/-- `(\d+)\s+LIT` (optionally followed by a greedy `s` when `optS`) at the
head; covers the remaining eight quantity patterns of nutrition_api.py
lines 40-50. -/
def qWsLit (lit : List Char) (optS : Bool) (l : List Char) : Option (ℕ × List Char) :=
  let ds := l.takeWhile isDigitB
  if ds.isEmpty then none
  else
    let r1 := l.dropWhile isDigitB
    let w := r1.takeWhile isPyWs
    if w.isEmpty then none
    else
      let r2 := r1.dropWhile isPyWs
      if lit.isPrefixOf r2 then
        let r3 := r2.drop lit.length
        if optS then
          match r3 with
          | 's' :: r4 => some (digitsToNat ds, r4)
          | _ => some (digitsToNat ds, r3)
        else some (digitsToNat ds, r3)
      else none

/-- The ordered quantity pattern list of nutrition_api.py lines 40-50. -/
def quantity_patterns : List (List Char → Option (ℕ × List Char)) :=
  [qDashPiece,
   qWsLit ('p' :: 'i' :: 'e' :: 'c' :: 'e' :: []) false,
   qWsLit ('c' :: 'u' :: 'p' :: []) true,
   qWsLit ('s' :: 'e' :: 'r' :: 'v' :: 'i' :: 'n' :: 'g' :: []) true,
   qWsLit ('g' :: 'r' :: 'a' :: 'm' :: []) true,
   qWsLit ('o' :: 'z' :: []) false,
   qWsLit ('m' :: 'e' :: 'd' :: 'i' :: 'u' :: 'm' :: []) false,
   qWsLit ('l' :: 'a' :: 'r' :: 'g' :: 'e' :: []) false,
   qWsLit ('s' :: 'm' :: 'a' :: 'l' :: 'l' :: []) false]

/-- The `for pattern in quantity_patterns` loop (nutrition_api.py lines
55-60 and 137-142): first pattern with a match anywhere wins, the food
name is the input with every match of that pattern removed, stripped. -/
def findQuantityIn : List (List Char → Option (ℕ × List Char)) → List Char →
    Option (ℕ × List Char)
  | [], _ => none
  | p :: ps, m =>
    match scanFirst p m with
    | some (q, _) => some (q, stripL (subAll (fun l => (p l).map Prod.snd) m.length m))
    | none => findQuantityIn ps m

def find_quantity (m : List Char) : Option (ℕ × List Char) :=
  findQuantityIn quantity_patterns m

/-- Python's `pat in l` substring test. -/
def containsSub (pat : List Char) : List Char → Bool
  | [] => pat.isEmpty
  | c :: cs => pat.isPrefixOf (c :: cs) || containsSub pat cs

/-- One alternative of `^(i just ate|i ate|ate|just ate)\s+`: the literal
followed by at least one whitespace character (greedily consumed). -/
def tryConsume (lit : List Char) (l : List Char) : Option (List Char) :=
  if lit.isPrefixOf l then
    let r := l.drop lit.length
    let w := r.takeWhile isPyWs
    if w.isEmpty then none else some (r.dropWhile isPyWs)
  else none

/-- `re.sub(r'^(i just ate|i ate|ate|just ate)\s+', '', l)`
(nutrition_api.py line 25; anchored, so at most one removal, and the
alternatives are tried in the pattern's order). -/
def stripPrefixPhrase (l : List Char) : List Char :=
  match tryConsume ('i' :: ' ' :: 'j' :: 'u' :: 's' :: 't' :: ' ' :: 'a' :: 't' :: 'e' :: []) l with
  | some r => r
  | none =>
    match tryConsume ('i' :: ' ' :: 'a' :: 't' :: 'e' :: []) l with
    | some r => r
    | none =>
      match tryConsume ('a' :: 't' :: 'e' :: []) l with
      | some r => r
      | none =>
        match tryConsume ('j' :: 'u' :: 's' :: 't' :: ' ' :: 'a' :: 't' :: 'e' :: []) l with
        | some r => r
        | none => l

/-! ### parse_food_message (nutrition_api.py lines 14-155) -/

/-- One entry of the `items` list built by `_parse_with_calories` /
`_parse_multiple_items`. -/
structure FoodItem where
  food_name : List Char
  calories : Option ℕ
  quantity : ℕ
deriving DecidableEq, Repr

/-- The dict returned by `parse_food_message`.  The single-item branch has
no `items` key, modelled as the empty list. -/
structure ParsedFood where
  food_name : List Char
  quantity : ℕ
  original_message : List Char
  total_calories : Option ℕ
  items : List FoodItem
deriving DecidableEq, Repr

/-- `" + ".join(item names)`. -/
def joinPlus (items : List FoodItem) : List Char :=
  List.intercalate (' ' :: '+' :: ' ' :: []) (items.map FoodItem.food_name)

/-- Cleaning of one calorie-bearing segment (nutrition_api.py lines 90-91):
remove `\(\d+\s*cals?\)`, strip, remove `\d+\s*cals?`, strip. -/
def cleanCalName (p : List Char) : List Char :=
  let f1 := stripL (subAll parenCalAt p.length p)
  stripL (subAll calTokAt f1.length f1)

/-- The item list of `_parse_with_calories` (lines 80-98): segments are
stripped, empty ones dropped, and a segment contributes an item only when
it contains a calorie token. -/
def calItems (parts : List (List Char)) : List FoodItem :=
  parts.filterMap (fun part =>
    let p := stripL part
    if p.isEmpty then none
    else
      match searchCalNum p with
      | some c => some ⟨cleanCalName p, some c, 1⟩
      | none => none)

/-- `total_calories` accumulated by the same loop. -/
def sumCal (items : List FoodItem) : ℕ :=
  items.foldl (fun a i => a + i.calories.getD 0) 0

/-- `NutritionAPI._parse_with_calories` (nutrition_api.py lines 69-106). -/
def parse_with_calories (m : List Char) : ParsedFood :=
  let items := calItems (splitSep m)
  ⟨joinPlus items, items.length, m, some (sumCal items), items⟩

/-- `NutritionAPI._parse_multiple_items` (nutrition_api.py lines 108-155). -/
def parse_multiple_items (m : List Char) : ParsedFood :=
  let items := (splitSep m).filterMap (fun part =>
    let p := stripL part
    if p.isEmpty then none
    else
      match find_quantity p with
      | some (q, name) => some (⟨name, none, q⟩ : FoodItem)
      | none => some ⟨p, none, 1⟩)
  ⟨joinPlus items, items.length, m, none, items⟩

/-- `NutritionAPI.parse_food_message` (nutrition_api.py lines 14-67). -/
def parse_food_message (msg : List Char) : ParsedFood :=
  let m := stripPrefixPhrase (pyLowerL msg)
  if (searchCalNum m).isSome then parse_with_calories m
  else if containsSub (' ' :: 'a' :: 'n' :: 'd' :: ' ' :: []) m
          || containsSub (' ' :: '&' :: ' ' :: []) m then parse_multiple_items m
  else
    match find_quantity m with
    | some (q, name) => ⟨name, q, m, none, []⟩
    | none => ⟨m, 1, m, none, []⟩

/-! ### Nutrition dictionaries and the lookup backends

A nutrition dict as produced by the backends.  Python dicts may lack keys
(the scrapers add each macro field only when their text extraction found
it), so every data field is an `Option`; `name` and `source` are always set
by every branch that returns a dict. -/

structure NutriDict where
  name : List Char
  calories : Option ℚ
  carbs : Option ℚ
  proteins : Option ℚ
  fats : Option ℚ
  source : List Char
  serving_size : Option ℚ
  note : Option (List Char)
deriving DecidableEq, Repr

/-- One element of `food["foodNutrients"]` (USDA response). -/
structure UsdaNutrient where
  nutrientId : Option ℕ
  value : Option ℚ
deriving DecidableEq, Repr

/-- One element of `data["foods"]` (USDA response). -/
structure UsdaFood where
  description : Option (List Char)
  servingSize : Option ℚ
  foodNutrients : List UsdaNutrient
deriving DecidableEq, Repr

/-- The `for nutrient in food.get("foodNutrients", [])` loop of
nutrition_api.py lines 189-198: the `nutrients` dict after the loop, as
the 4-tuple (calories, carbs, proteins, fats); a later nutrient with the
same id overwrites an earlier one. -/
def usdaNutrientsLoop (ns : List UsdaNutrient) :
    Option ℚ × Option ℚ × Option ℚ × Option ℚ :=
  ns.foldl (fun s n =>
    if n.nutrientId == some 1008 then (some (n.value.getD 0), s.2.1, s.2.2.1, s.2.2.2)
    else if n.nutrientId == some 205 then (s.1, some (n.value.getD 0), s.2.2.1, s.2.2.2)
    else if n.nutrientId == some 203 then (s.1, s.2.1, some (n.value.getD 0), s.2.2.2)
    else if n.nutrientId == some 204 then (s.1, s.2.1, s.2.2.1, some (n.value.getD 0))
    else s) (none, none, none, none)

/-- `NutritionAPI.search_usda_food` (nutrition_api.py lines 157-213).
`key` is `self.usda_api_key` (`none` models a missing/empty credential);
`resp` is what the HTTP request + `response.json()` would deliver
(`.error` when the remote call raises; caught by the function's
`try/except`). -/
def search_usda_food (key : Option (List Char)) (resp : Except PyErr (List UsdaFood))
    (food_name : List Char) : Option NutriDict :=
  match key with
  | none => none
  | some _ =>
    match resp with
    | .error _ => none
    | .ok foods =>
      match foods with
      | [] => none
      | food :: _ =>
        let n := usdaNutrientsLoop food.foodNutrients
        some ⟨food.description.getD food_name,
              some (n.1.getD 0), some (n.2.1.getD 0), some (n.2.2.1.getD 0),
              some (n.2.2.2.getD 0), "USDA".data,
              some (food.servingSize.getD 100), none⟩

/-- One instant-search hit (`common`/`branded` arrays). -/
structure NixItem where
  food_name : Option (List Char)
deriving DecidableEq, Repr

/-- Body of the Nutritionix instant search response. -/
structure NixInstant where
  common : List NixItem
  branded : List NixItem
deriving DecidableEq, Repr

/-- One element of `result["foods"]` of the natural/nutrients response. -/
structure NixFood where
  food_name : Option (List Char)
  nf_calories : Option ℚ
  nf_total_carbohydrate : Option ℚ
  nf_protein : Option ℚ
  nf_total_fat : Option ℚ
  serving_qty : Option ℚ
deriving DecidableEq, Repr

/-- `NutritionAPI.get_nutritionix_nutrition` (nutrition_api.py lines
261-303); `resp` is the natural/nutrients call outcome. -/
def get_nutritionix_nutrition (resp : Except PyErr (List NixFood))
    (food_name : List Char) : Option NutriDict :=
  match resp with
  | .error _ => none
  | .ok foods =>
    match foods with
    | [] => none
    | food :: _ =>
      some ⟨food.food_name.getD food_name,
            some (food.nf_calories.getD 0), some (food.nf_total_carbohydrate.getD 0),
            some (food.nf_protein.getD 0), some (food.nf_total_fat.getD 0),
            "Nutritionix".data, some (food.serving_qty.getD 1), none⟩

/-- `NutritionAPI.search_nutritionix` (nutrition_api.py lines 215-259). -/
def search_nutritionix (app_id app_key : Option (List Char))
    (instant : Except PyErr NixInstant) (nutrients : Except PyErr (List NixFood))
    (food_name : List Char) : Option NutriDict :=
  match app_id, app_key with
  | some _, some _ =>
    (match instant with
     | .error _ => none
     | .ok data =>
       if !data.common.isEmpty || !data.branded.isEmpty then
         let food_item : Option NixItem :=
           if !data.common.isEmpty then data.common.head?
           else if !data.branded.isEmpty then data.branded.head?
           else none
         match food_item with
         | some it => get_nutritionix_nutrition nutrients (it.food_name.getD food_name)
         | none => none
       else none)
  | _, _ => none

/-- What the FatSecret page scraping of web_scraper.py lines 24-70 would
extract: whether a search-result link was found, and the per-nutrient
values whose label-adjacent regexes matched (a field is `none` when the
nutrition-facts section was missing or that nutrient's text was not
found). -/
structure FsExtract where
  result_link : Bool
  calories : Option ℕ
  proteins : Option ℚ
  carbs : Option ℚ
  fats : Option ℚ
deriving DecidableEq, Repr

/-- `NutritionWebScraper.search_fatsecret` (web_scraper.py lines 14-80):
the dict is returned only when non-empty, and it may be partial. -/
def search_fatsecret (outcome : Except PyErr FsExtract)
    (food_name : List Char) : Option NutriDict :=
  match outcome with
  | .error _ => none
  | .ok e =>
    if !e.result_link then none
    else
      if e.calories.isSome || e.proteins.isSome || e.carbs.isSome || e.fats.isSome then
        some ⟨food_name, (e.calories.map (fun n => (n : ℚ))), e.carbs, e.proteins,
              e.fats, "FatSecret".data, none, none⟩
      else none

/-- What the MyFitnessPal page scraping of web_scraper.py lines 100-118
would extract. -/
structure MfpExtract where
  calories : Option ℕ
  proteins : Option ℚ
  carbs : Option ℚ
  fats : Option ℚ
deriving DecidableEq, Repr

/-- `NutritionWebScraper.search_myfitnesspal` (web_scraper.py lines
82-128). -/
def search_myfitnesspal (outcome : Except PyErr MfpExtract)
    (food_name : List Char) : Option NutriDict :=
  match outcome with
  | .error _ => none
  | .ok e =>
    if e.calories.isSome || e.proteins.isSome || e.carbs.isSome || e.fats.isSome then
      some ⟨food_name, (e.calories.map (fun n => (n : ℚ))), e.carbs, e.proteins,
            e.fats, "MyFitnessPal".data, none, none⟩
    else none

/-- Per-100g row of the estimate table. -/
structure EstRow where
  calories : ℚ
  carbs : ℚ
  proteins : ℚ
  fats : ℚ
deriving DecidableEq, Repr

/-- The `food_estimates` mapping of web_scraper.py lines 169-190, in its
source order. -/
def food_estimates : List (List Char × EstRow) :=
  [("rice".data, ⟨130, 28, 27/10, 3/10⟩),
   ("chicken".data, ⟨165, 0, 31, 36/10⟩),
   ("dal".data, ⟨116, 20, 9, 4/10⟩),
   ("roti".data, ⟨264, 46, 8, 42/10⟩),
   ("subzi".data, ⟨50, 10, 2, 5/10⟩),
   ("bread".data, ⟨265, 49, 9, 32/10⟩),
   ("milk".data, ⟨42, 5, 34/10, 1⟩),
   ("egg".data, ⟨155, 11/10, 13, 11⟩),
   ("banana".data, ⟨89, 23, 11/10, 3/10⟩),
   ("apple".data, ⟨52, 14, 3/10, 2/10⟩),
   ("potato".data, ⟨77, 17, 2, 1/10⟩),
   ("tomato".data, ⟨18, 39/10, 9/10, 2/10⟩),
   ("onion".data, ⟨40, 93/10, 11/10, 1/10⟩),
   ("carrot".data, ⟨41, 10, 9/10, 2/10⟩),
   ("spinach".data, ⟨23, 36/10, 29/10, 4/10⟩),
   ("yogurt".data, ⟨59, 36/10, 10, 4/10⟩),
   ("cheese".data, ⟨113, 4/10, 7, 9⟩),
   ("fish".data, ⟨84, 0, 20, 5/10⟩),
   ("beef".data, ⟨250, 0, 26, 15⟩),
   ("pork".data, ⟨242, 0, 27, 14⟩)]

/-- The `for food_key, nutrition in food_estimates.items()` loop of
web_scraper.py lines 194-195: first key contained in the lowered name. -/
def estimateLookup : List (List Char × EstRow) → List Char → Option EstRow
  | [], _ => none
  | (k, v) :: rest, food => if containsSub k food then some v else estimateLookup rest food

/-- `NutritionWebScraper.get_estimated_nutrition` (web_scraper.py lines
158-206). -/
def get_estimated_nutrition (food_name : List Char) : Option NutriDict :=
  match estimateLookup food_estimates (pyLowerL food_name) with
  | some v =>
    some ⟨food_name, some v.calories, some v.carbs, some v.proteins, some v.fats,
          "Estimated".data, none, some "Based on general food estimates".data⟩
  | none => none

instance {ε α : Type} [DecidableEq ε] [DecidableEq α] : DecidableEq (Except ε α) := fun x y =>
  match x, y with
  | .ok a, .ok b =>
    if h : a = b then .isTrue (by rw [h])
    else .isFalse (fun hh => h (Except.ok.inj hh))
  | .error a, .error b =>
    if h : a = b then .isTrue (by rw [h])
    else .isFalse (fun hh => h (Except.error.inj hh))
  | .ok _, .error _ => .isFalse (fun hh => Except.noConfusion hh)
  | .error _, .ok _ => .isFalse (fun hh => Except.noConfusion hh)

/-- Remote-call outcomes for one `get_food_nutrition` request: the
environment each backend would observe. -/
structure NutritionEnv where
  usda_api_key : Option (List Char)
  usdaResp : Except PyErr (List UsdaFood)
  nutritionix_app_id : Option (List Char)
  nutritionix_app_key : Option (List Char)
  nixInstant : Except PyErr NixInstant
  nixNutrients : Except PyErr (List NixFood)
  fatsecret : Except PyErr FsExtract
  myfitnesspal : Except PyErr MfpExtract
deriving DecidableEq, Repr

/-- `NutritionWebScraper.search_generic_nutrition` (web_scraper.py lines
130-156): FatSecret then MyFitnessPal, first non-null result wins. -/
def search_generic_nutrition (env : NutritionEnv) (food_name : List Char) :
    Option NutriDict :=
  match search_fatsecret env.fatsecret food_name with
  | some r => some r
  | none =>
    match search_myfitnesspal env.myfitnesspal food_name with
    | some r => some r
    | none => none

/-- The fallback chain of `get_food_nutrition` (nutrition_api.py lines
332-348): USDA, then Nutritionix, then web scraping, then the estimate
table. -/
def lookup_chain (env : NutritionEnv) (food_name : List Char) : Option NutriDict :=
  match search_usda_food env.usda_api_key env.usdaResp food_name with
  | some d => some d
  | none =>
    match search_nutritionix env.nutritionix_app_id env.nutritionix_app_key
        env.nixInstant env.nixNutrients food_name with
    | some d => some d
    | none =>
      match search_generic_nutrition env food_name with
      | some d => some d
      | none => get_estimated_nutrition food_name

/-- Python truthiness of `parsed_food.get("total_calories")`: an absent
key or the value `0` is falsy. -/
def truthyOptNat : Option ℕ → Bool
  | none => false
  | some n => !(n == 0)

/-- Dict lookup `d[key]`, raising `KeyError` when the key is absent. -/
def dictGet (key : List Char) : Option ℚ → Except PyErr ℚ
  | some v => .ok v
  | none => .error (.keyError key)

/-- `NutritionAPI.get_food_nutrition` (nutrition_api.py lines 305-357).
The body has no `try/except` of its own, so the `*=` quantity scaling
(lines 351-355) raises `KeyError` to the caller when the chain's dict
lacks a macro key. -/
def get_food_nutrition (env : NutritionEnv) (msg : List Char) :
    Except PyErr (ParsedFood × Option NutriDict) :=
  let p := parse_food_message msg
  if truthyOptNat p.total_calories then
    .ok (p, some ⟨p.food_name, some ((p.total_calories.getD 0 : ℕ) : ℚ),
                  some 0, some 0, some 0, "User Provided".data, none,
                  some "Calories provided by user".data⟩)
  else
    match lookup_chain env p.food_name with
    | none => .ok (p, none)
    | some d =>
      match dictGet ("calories".data) d.calories with
      | .error e => .error e
      | .ok c =>
        match dictGet ("carbs".data) d.carbs with
        | .error e => .error e
        | .ok cb =>
          match dictGet ("proteins".data) d.proteins with
          | .error e => .error e
          | .ok pr =>
            match dictGet ("fats".data) d.fats with
            | .error e => .error e
            | .ok ft =>
              .ok (p, some { d with
                calories := some (c * (p.quantity : ℚ)),
                carbs := some (cb * (p.quantity : ℚ)),
                proteins := some (pr * (p.quantity : ℚ)),
                fats := some (ft * (p.quantity : ℚ)) })

/-! ### ai_food_parser.py -/

/-- The JSON object extracted from the model's reply (dict with optional
keys, read with `.get` defaults in `_parse_ai_response`). -/
structure AiDict where
  food_name : Option (List Char)
  quantity : Option ℚ
  unit : Option (List Char)
  calories : Option ℚ
  proteins : Option ℚ
  carbs : Option ℚ
  fats : Option ℚ
  confidence : Option (List Char)
  notes : Option (List Char)
  search_terms : Option (List (List Char))
deriving DecidableEq, Repr

/-- The `nutrition_data` dict of the AI path / fallback path.  The
fallback dict has no `notes` key, hence the `Option`. -/
structure AiNutri where
  name : List Char
  calories : ℚ
  carbs : ℚ
  proteins : ℚ
  fats : ℚ
  source : List Char
  confidence : List Char
  notes : Option (List Char)
deriving DecidableEq, Repr

/-- The dict returned by `parse_food_with_ai`.  `unit` and `search_terms`
are absent from the fallback dict; `source` is set only by the web-search
augmentation. -/
structure AiParsed where
  food_name : List Char
  quantity : ℚ
  unit : Option (List Char)
  original_message : List Char
  nutrition_data : Option AiNutri
  search_terms : Option (List (List Char))
  confidence : List Char
  source : Option (List Char)
deriving DecidableEq, Repr

/-- `(\d+)-piece|(\d+)\s+piece` at the head (ai_food_parser.py line 249):
the two alternatives are tried in order at each position. -/
def fbQuantAt (l : List Char) : Option (ℕ × List Char) :=
  match qDashPiece l with
  | some r => some r
  | none => qWsLit ('p' :: 'i' :: 'e' :: 'c' :: 'e' :: []) false l

/-- `(\d+)\s*cals?|(\d+)-piece|(\d+)\s+piece` at the head (ai_food_parser.py
line 253), for `re.sub`. -/
def fbCleanAt (l : List Char) : Option (List Char) :=
  match calTokAt l with
  | some r => some r
  | none => (fbQuantAt l).map Prod.snd

/-- `AIFoodParser._fallback_parse` (ai_food_parser.py lines 239-270). -/
def fallback_parse (msg : List Char) : AiParsed :=
  let m := pyLowerL msg
  let calories : ℕ := (searchCalNum m).getD 0
  let quantity : ℕ := ((scanFirst fbQuantAt m).map Prod.fst).getD 1
  let food_name := stripPrefixPhrase (stripL (subAll fbCleanAt m.length m))
  ⟨food_name, (quantity : ℚ), none, m,
   some ⟨food_name, (calories : ℚ), 0, 0, 0, "Fallback".data, "low".data, none⟩,
   none, "low".data, none⟩

/-- The successful branch of `AIFoodParser._parse_ai_response`
(ai_food_parser.py lines 136-158), applied to the parsed JSON dict. -/
def aiResult (d : AiDict) (msg : List Char) : AiParsed :=
  let fn := d.food_name.getD ("Unknown Food".data)
  ⟨fn, d.quantity.getD 1, some (d.unit.getD ("serving".data)), msg,
   some ⟨fn, d.calories.getD 0, d.carbs.getD 0, d.proteins.getD 0, d.fats.getD 0,
         "AI Analysis".data, d.confidence.getD ("low".data), some (d.notes.getD [])⟩,
   some (d.search_terms.getD []), d.confidence.getD ("low".data), none⟩

/-- Environment of one `parse_food_with_ai` call.  `aiReply` is the
Bedrock invocation combined with the JSON extraction of
`_parse_ai_response`: `.error` when the remote call raises, `.ok none`
when the reply holds no parseable JSON object (both routes end in
`_fallback_parse`), `.ok (some d)` the parsed dict.  `webNutrition` is
the outcome the web-search extraction would produce. -/
structure AiEnv where
  bedrockConfigured : Bool
  aiReply : Except PyErr (Option AiDict)
  webNutrition : Option AiNutri
deriving DecidableEq, Repr

/-- `AIFoodParser.parse_food_with_ai` (ai_food_parser.py lines 31-65). -/
def parse_food_with_ai (env : AiEnv) (msg : List Char) : AiParsed :=
  if !env.bedrockConfigured then fallback_parse msg
  else
    match env.aiReply with
    | .error _ => fallback_parse msg
    | .ok none => fallback_parse msg
    | .ok (some d) =>
      let pd := aiResult d msg
      match pd.nutrition_data with
      | some _ => pd
      | none =>
        match env.webNutrition with
        | some w => { pd with nutrition_data := some w,
                              source := some "Web Search".data }
        | none => pd

/-! ### telegram_bot.py callback handling and notion_integration.py -/

/-- The arguments `handle_callback` passes to
`NotionIntegration.create_food_entry` (telegram_bot.py lines 185-192), in
the source's keyword order. -/
structure PersistCall where
  food_name : List Char
  calories : ℚ
  proteins : ℚ
  carbs : ℚ
  fats : ℚ
  meal_type : List Char
deriving DecidableEq, Repr

/-- `NotionIntegration.create_food_entry` (notion_integration.py lines
25-88): the POST outcome decides the boolean, every exception is caught and
becomes `false`. -/
def create_food_entry (post : Except PyErr Unit) : Bool :=
  match post with
  | .ok _ => true
  | .error _ => false

/-- The user-visible reply of one `handle_callback` turn. -/
inductive BotReply where
  | noFoodData
  | saved (food meal : List Char) (calories : ℚ)
  | saveFailed
  | errorSaving
deriving DecidableEq, Repr

/-- Observable outcome of one `handle_callback` turn: the `user_data` map
afterwards, the persistence call made (if any) and its success, and the
reply sent. -/
structure CallbackResult where
  user_data : List (ℕ × AiParsed)
  persist : Option PersistCall
  notion_success : Option Bool
  reply : Option BotReply
deriving DecidableEq, Repr

/-- `self.user_data` lookup (`user_id in self.user_data`). -/
def lookupUser (st : List (ℕ × AiParsed)) (uid : ℕ) : Option AiParsed :=
  (st.find? (fun e => e.1 == uid)).map Prod.snd

/-- `del self.user_data[user_id]`. -/
def delUser (st : List (ℕ × AiParsed)) (uid : ℕ) : List (ℕ × AiParsed) :=
  st.filter (fun e => !(e.1 == uid))

/-- `CalorieTrackingBot.handle_callback` (telegram_bot.py lines 166-214).
`notionPost` is the outcome the Notion page-creation POST would have.  A
stored `nutrition_data` of `None` makes the field accesses in the `try`
block raise, which the `except` turns into an error reply with the pending
entry left in place. -/
def handle_callback (st : List (ℕ × AiParsed)) (uid : ℕ) (cbdata : List Char)
    (notionPost : Except PyErr Unit) : CallbackResult :=
  match lookupUser st uid with
  | none => ⟨st, none, none, some .noFoodData⟩
  | some pd =>
    if ('m' :: 'e' :: 'a' :: 'l' :: '_' :: []).isPrefixOf cbdata then
      let mt := cbdata.drop 5
      match pd.nutrition_data with
      | none => ⟨st, none, none, some .errorSaving⟩
      | some nut =>
        let call : PersistCall :=
          ⟨pd.food_name, nut.calories, nut.proteins, nut.carbs, nut.fats, mt⟩
        if create_food_entry notionPost then
          ⟨delUser st uid, some call, some true, some (.saved pd.food_name mt nut.calories)⟩
        else
          ⟨delUser st uid, some call, some false, some .saveFailed⟩
    else ⟨st, none, none, none⟩

/-! ### Auxiliary specification-side definitions used by the theorems -/

/-- The value recorded for nutrient id `i` by the USDA nutrient loop: the
`value` (default 0) of the last nutrient whose `nutrientId` is `i`, or
`none` when there is none. -/
def lastVal (i : ℕ) (ns : List UsdaNutrient) : Option ℚ :=
  (ns.reverse.find? (fun n => n.nutrientId == some i)).map (fun n => n.value.getD 0)

/-- `" ".join(ws)`: a multi-word food name from its words. -/
def nameW (ws : List (List Char)) : List Char := List.intercalate (' ' :: []) ws

/-- A plain lower-case alphabetic word. -/
def goodWordB (w : List Char) : Bool := !w.isEmpty && w.all lcAlphaB

/-- A benign food name for the compound-message family: non-empty list of
lower-case alphabetic words, none of them the word `and` (which the
splitting regex would cut at), and the first word none of `i`, `ate`,
`just` (which the prefix-stripping regex would consume). -/
def goodNameB (ws : List (List Char)) : Bool :=
  !ws.isEmpty && ws.all goodWordB &&
  ws.all (fun w => !(w == ('a' :: 'n' :: 'd' :: []))) &&
  (match ws.head? with
   | some w => !(w == ('i' :: [])) && !(w == ('a' :: 't' :: 'e' :: [])) &&
               !(w == ('j' :: 'u' :: 's' :: 't' :: []))
   | none => false)

/-- A non-empty decimal digit string. -/
def allDigitsB (ds : List Char) : Bool := !ds.isEmpty && ds.all isDigitB

/-- The compound input `"X (A cals) and Y (B cals)"` built from the two
names (as word lists) and the two decimal calorie strings. -/
def compoundMsg (x y : List (List Char)) (da db : List Char) : List Char :=
  nameW x ++ (' ' :: '(' :: []) ++ da ++
    (' ' :: 'c' :: 'a' :: 'l' :: 's' :: ')' :: ' ' :: 'a' :: 'n' :: 'd' :: ' ' :: []) ++
    nameW y ++ (' ' :: '(' :: []) ++ db ++ (' ' :: 'c' :: 'a' :: 'l' :: 's' :: ')' :: [])

/-! ## Theorems -/

/-! ### Estimate table (C4) -/

theorem estimateLookup_of_first (food : List Char) :
    ∀ (tbl : List (List Char × EstRow)) (i : ℕ) (k : List Char) (v : EstRow),
      tbl[i]? = some (k, v) → containsSub k food = true →
      (∀ j, j < i → ∀ k' v', tbl[j]? = some (k', v') → containsSub k' food = false) →
      estimateLookup tbl food = some v := by
  intro tbl
  induction tbl with
  | nil => intro i k v h; simp at h
  | cons hd rest ih =>
    intro i k v hget hc hmin
    rcases hd with ⟨k0, v0⟩
    cases i with
    | zero =>
      simp at hget
      rcases hget with ⟨hk, hv⟩
      subst hk; subst hv
      simp [estimateLookup, hc]
    | succ i' =>
      have h0 : containsSub k0 food = false := hmin 0 (Nat.succ_pos _) k0 v0 (by simp)
      simp at hget
      have ih' := ih i' k v hget hc (fun j hj k' v' hg => hmin (j + 1) (by omega) k' v' (by simpa using hg))
      simp [estimateLookup, h0, ih']

theorem estimateLookup_none_of_all (food : List Char) :
    ∀ (tbl : List (List Char × EstRow)),
      (∀ k v, (k, v) ∈ tbl → containsSub k food = false) →
      estimateLookup tbl food = none := by
  intro tbl
  induction tbl with
  | nil => intro _; rfl
  | cons hd rest ih =>
    intro h
    rcases hd with ⟨k0, v0⟩
    have h0 : containsSub k0 food = false := h k0 v0 (by simp)
    simp [estimateLookup, h0, ih (fun k v hm => h k v (by simp [hm]))]

/-- Claim C4: the Estimate Table lookup is a pure, deterministic function:
`get_estimated_nutrition` returns the per-100g values of the first key, in
the table's fixed order, that occurs (case-insensitively, via lowering the
food name) as a substring of the food name — regardless of whether a later
key would be a longer or more specific match — and returns `none` when no
key occurs. -/
theorem claim_C4_estimate_table_first_match (food : List Char) :
    (∀ (i : ℕ) (k : List Char) (v : EstRow),
      food_estimates[i]? = some (k, v) →
      containsSub k (pyLowerL food) = true →
      (∀ j, j < i → ∀ k' v', food_estimates[j]? = some (k', v') →
        containsSub k' (pyLowerL food) = false) →
      get_estimated_nutrition food =
        some ⟨food, some v.calories, some v.carbs, some v.proteins, some v.fats,
              "Estimated".data, none, some "Based on general food estimates".data⟩) ∧
    ((∀ k v, (k, v) ∈ food_estimates → containsSub k (pyLowerL food) = false) →
      get_estimated_nutrition food = none) := by
  constructor
  · intro i k v hget hc hmin
    have h := estimateLookup_of_first (pyLowerL food) food_estimates i k v hget hc hmin
    simp [get_estimated_nutrition, h]
  · intro h
    have h' := estimateLookup_none_of_all (pyLowerL food) food_estimates h
    simp [get_estimated_nutrition, h']

/-- Witness for C4 at a name matched by two keys: `rice` (index 0) wins
over the longer, earlier-in-the-name match `chicken` (index 1). -/
theorem claim_C4_witness :
    get_estimated_nutrition ("grilled chicken and rice".data) =
      some ⟨"grilled chicken and rice".data, some 130, some 28, some (27/10),
            some (3/10), "Estimated".data, none,
            some "Based on general food estimates".data⟩ :=
  (claim_C4_estimate_table_first_match ("grilled chicken and rice".data)).1
    0 ("rice".data) ⟨130, 28, 27/10, 3/10⟩ (by rfl) (by decide)
    (fun j hj k' v' hg => absurd hj (Nat.not_lt_zero j))

/-! ### USDA client (C7) -/

theorem usdaNutrientsLoop_eq (ns : List UsdaNutrient) :
    usdaNutrientsLoop ns = (lastVal 1008 ns, lastVal 205 ns, lastVal 203 ns, lastVal 204 ns) := by
  induction ns using List.reverseRecOn with
  | nil => rfl
  | append_singleton ns n ih =>
    unfold usdaNutrientsLoop at ih ⊢
    rw [List.foldl_append, List.foldl_cons, List.foldl_nil, ih]
    simp only [lastVal, List.reverse_append, List.reverse_singleton, List.singleton_append,
               List.find?_cons]
    by_cases h8 : n.nutrientId = some 1008
    · simp [h8]
    · by_cases h5 : n.nutrientId = some 205
      · simp [h8, h5]
      · by_cases h3 : n.nutrientId = some 203
        · simp [h8, h5, h3]
        · by_cases h4 : n.nutrientId = some 204
          · simp [h8, h5, h3, h4]
          · have b8 : (n.nutrientId == some 1008) = false := by simp [h8]
            have b5 : (n.nutrientId == some 205) = false := by simp [h5]
            have b3 : (n.nutrientId == some 203) = false := by simp [h3]
            have b4 : (n.nutrientId == some 204) = false := by simp [h4]
            simp [b8, b5, b3, b4]

/-- Claim C7: `search_usda_food` returns `none` when the API credential is
missing, for every possible remote response (so no call can influence the
result), and otherwise uses only the first search hit, mapping nutrient
ids 1008→calories, 205→carbs, 203→proteins, 204→fats, with an id that never
occurs defaulting that field to 0 (the tail `fs` of the hit list is
arbitrary on both sides, so later hits are ignored). -/
theorem claim_C7_usda_mapping (resp : Except PyErr (List UsdaFood))
    (name k : List Char) (f : UsdaFood) (fs : List UsdaFood) :
    search_usda_food none resp name = none ∧
    search_usda_food (some k) (.ok (f :: fs)) name =
      some ⟨f.description.getD name,
            some ((lastVal 1008 f.foodNutrients).getD 0),
            some ((lastVal 205 f.foodNutrients).getD 0),
            some ((lastVal 203 f.foodNutrients).getD 0),
            some ((lastVal 204 f.foodNutrients).getD 0),
            "USDA".data, some (f.servingSize.getD 100), none⟩ := by
  constructor
  · rfl
  · simp [search_usda_food, usdaNutrientsLoop_eq]

/-! ### Callback handling (C8, C9) -/

/-- Claim C8: confirming a meal type when no pending interaction exists for
the user yields only the `noFoodData` reply: no persistence call is made
and the stored `user_data` map is unchanged. -/
theorem claim_C8_no_pending (st : List (ℕ × AiParsed)) (uid : ℕ)
    (cbdata : List Char) (post : Except PyErr Unit)
    (h : lookupUser st uid = none) :
    handle_callback st uid cbdata post = ⟨st, none, none, some .noFoodData⟩ := by
  unfold handle_callback
  rw [h]

theorem claim_C8_witness :
    handle_callback [] 7 ("meal_Lunch".data) (.ok ()) = ⟨[], none, none, some .noFoodData⟩ :=
  claim_C8_no_pending [] 7 ("meal_Lunch".data) (.ok ()) rfl

/-- Counterexample to C9: with a pending entry for user 7 and a failing
Notion POST, the callback deletes the pending entry even though
persistence did not succeed — deletion does not coincide with successful
persistence. -/
theorem claim_C9_counterexample :
    handle_callback
      [(7, ⟨"pizza".data, 1, none, "pizza".data,
            some ⟨"pizza".data, 300, 0, 0, 0, "Fallback".data, "low".data, none⟩,
            none, "low".data, none⟩)]
      7 ("meal_Lunch".data) (.error .remote) =
    ⟨[], some ⟨"pizza".data, 300, 0, 0, 0, "Lunch".data⟩, some false, some .saveFailed⟩ := by
  decide

/-- Claim C9 (amended): a pending interaction is consumed exactly when the
user picks a meal type and the stored interpretation carries nutrition
data — the entry is deleted and a persistence call is made regardless of
whether that call succeeds; an unanswered interaction is left in place. -/
theorem claim_C9_amended_consumed_on_pick (st : List (ℕ × AiParsed)) (uid : ℕ)
    (pd : AiParsed) (nut : AiNutri) (mt : List Char) (post : Except PyErr Unit)
    (h1 : lookupUser st uid = some pd) (h2 : pd.nutrition_data = some nut) :
    handle_callback st uid (('m' :: 'e' :: 'a' :: 'l' :: '_' :: []) ++ mt) post =
      ⟨delUser st uid,
       some ⟨pd.food_name, nut.calories, nut.proteins, nut.carbs, nut.fats, mt⟩,
       some (create_food_entry post),
       some (if create_food_entry post then .saved pd.food_name mt nut.calories
             else .saveFailed)⟩ := by
  unfold handle_callback
  rw [h1]
  simp only [h2]
  have hp : (('m' :: 'e' :: 'a' :: 'l' :: '_' :: []) : List Char).isPrefixOf
      (('m' :: 'e' :: 'a' :: 'l' :: '_' :: []) ++ mt) = true := by
    simp [List.isPrefixOf]
  have hd : List.drop 5 ((('m' :: 'e' :: 'a' :: 'l' :: '_' :: []) : List Char) ++ mt) = mt := rfl
  simp only [hp, hd, if_true]
  cases post <;> simp [create_food_entry]

theorem claim_C9_witness :
    handle_callback
      [(3, ⟨"rice".data, 1, none, "rice".data,
            some ⟨"rice".data, 130, 28, 27/10, 3/10, "Estimated".data, "low".data, none⟩,
            none, "low".data, none⟩)]
      3 ("meal_Snack".data) (.ok ()) =
    ⟨[], some ⟨"rice".data, 130, 27/10, 28, 3/10, "Snack".data⟩, some true,
     some (.saved ("rice".data) ("Snack".data) 130)⟩ :=
  claim_C9_amended_consumed_on_pick
    [(3, ⟨"rice".data, 1, none, "rice".data,
          some ⟨"rice".data, 130, 28, 27/10, 3/10, "Estimated".data, "low".data, none⟩,
          none, "low".data, none⟩)]
    3 _ _ ("Snack".data) (.ok ()) rfl rfl

/-! ### Error propagation out of get_food_nutrition (C3) -/

/-- Claim C3 is violated by the code: a FatSecret scrape that finds a
protein value but no calories yields a partial dict, and the quantity
scaling of `get_food_nutrition` then raises `KeyError('calories')` to the
caller instead of degrading to an absent estimate. -/
theorem claim_C3_partial_scrape_keyerror :
    get_food_nutrition
      ⟨none, .ok [], none, none, .ok ⟨[], []⟩, .ok [],
       .ok ⟨true, none, some 5, none, none⟩, .ok ⟨none, none, none, none⟩⟩
      ("fish".data) =
    .error (.keyError ("calories".data)) := by
  decide

/-! ### Quantity scaling in get_food_nutrition (C2) -/

/-- Claim C2: whatever complete per-unit estimate `{c, cb, pr, ft}` the
fallback chain produces — whichever and however many stages ran — the
result of `get_food_nutrition` multiplies each macro by the parsed
quantity exactly once; the multiplication is skipped exactly in the
user-provided-calories case (truthy `total_calories`), where the estimate
is passed through unscaled. -/
theorem claim_C2_quantity_scaling (env : NutritionEnv) (msg : List Char) :
    (∀ (d : NutriDict) (c cb pr ft : ℚ),
      truthyOptNat (parse_food_message msg).total_calories = false →
      lookup_chain env (parse_food_message msg).food_name = some d →
      d.calories = some c → d.carbs = some cb → d.proteins = some pr → d.fats = some ft →
      get_food_nutrition env msg =
        .ok (parse_food_message msg,
             some { d with
               calories := some (c * ((parse_food_message msg).quantity : ℚ)),
               carbs := some (cb * ((parse_food_message msg).quantity : ℚ)),
               proteins := some (pr * ((parse_food_message msg).quantity : ℚ)),
               fats := some (ft * ((parse_food_message msg).quantity : ℚ)) })) ∧
    (∀ n : ℕ, (parse_food_message msg).total_calories = some n → n ≠ 0 →
      get_food_nutrition env msg =
        .ok (parse_food_message msg,
             some ⟨(parse_food_message msg).food_name, some ((n : ℕ) : ℚ), some 0, some 0,
                   some 0, "User Provided".data, none,
                   some "Calories provided by user".data⟩)) := by
  constructor
  · intro d c cb pr ft hT hchain hc hcb hpr hft
    simp only [get_food_nutrition, hT, Bool.false_eq_true, if_false, hchain, hc, hcb, hpr, hft,
               dictGet]
  · intro n hTot hn
    have ht2 : truthyOptNat (some n) = true := by simp [truthyOptNat, hn]
    simp only [get_food_nutrition, hTot, Option.getD_some, ht2, if_true]

theorem claim_C2_witness :
    get_food_nutrition
      ⟨none, .ok [], none, none, .ok ⟨[], []⟩, .ok [],
       .ok ⟨false, none, none, none, none⟩, .ok ⟨none, none, none, none⟩⟩
      ("2 cups rice".data) =
    .ok (parse_food_message ("2 cups rice".data),
         some ⟨"rice".data,
               some (130 * (((parse_food_message ("2 cups rice".data)).quantity : ℕ) : ℚ)),
               some (28 * (((parse_food_message ("2 cups rice".data)).quantity : ℕ) : ℚ)),
               some ((27/10) * (((parse_food_message ("2 cups rice".data)).quantity : ℕ) : ℚ)),
               some ((3/10) * (((parse_food_message ("2 cups rice".data)).quantity : ℕ) : ℚ)),
               "Estimated".data, none, some "Based on general food estimates".data⟩) :=
  (claim_C2_quantity_scaling
    ⟨none, .ok [], none, none, .ok ⟨[], []⟩, .ok [],
     .ok ⟨false, none, none, none, none⟩, .ok ⟨none, none, none, none⟩⟩
    ("2 cups rice".data)).1
    ⟨"rice".data, some 130, some 28, some (27/10), some (3/10), "Estimated".data, none,
     some "Based on general food estimates".data⟩
    130 28 (27/10) (3/10) rfl rfl rfl rfl rfl rfl

/-! ### Fallback parse with explicit calories (C5) -/

/-- Claim C5: with no language-model backend configured,
`parse_food_with_ai` is exactly `_fallback_parse`, and for any message
whose first `(\d+)\s*cals?` token (on the lowered text) carries the
positive value `n`, the returned estimate has calories exactly `n`, all
macros 0, source `Fallback` and confidence `low`. -/
theorem claim_C5_fallback_explicit_calories (env : AiEnv) (msg : List Char) (n : ℕ)
    (hb : env.bedrockConfigured = false)
    (hcal : searchCalNum (pyLowerL msg) = some n) (hpos : 0 < n) :
    parse_food_with_ai env msg = fallback_parse msg ∧
    ((parse_food_with_ai env msg).nutrition_data).map AiNutri.calories = some ((n : ℕ) : ℚ) ∧
    ((parse_food_with_ai env msg).nutrition_data).map AiNutri.proteins = some 0 ∧
    ((parse_food_with_ai env msg).nutrition_data).map AiNutri.carbs = some 0 ∧
    ((parse_food_with_ai env msg).nutrition_data).map AiNutri.fats = some 0 ∧
    ((parse_food_with_ai env msg).nutrition_data).map AiNutri.source = some ("Fallback".data) ∧
    ((parse_food_with_ai env msg).nutrition_data).map AiNutri.confidence = some ("low".data) := by
  have h1 : parse_food_with_ai env msg = fallback_parse msg := by
    simp [parse_food_with_ai, hb]
  refine ⟨h1, ?_, ?_, ?_, ?_, ?_, ?_⟩ <;> rw [h1] <;> simp [fallback_parse, hcal]

theorem claim_C5_witness :
    parse_food_with_ai ⟨false, .ok none, none⟩ ("i ate muffin 400 cals".data) =
      fallback_parse ("i ate muffin 400 cals".data) ∧
    ((parse_food_with_ai ⟨false, .ok none, none⟩
        ("i ate muffin 400 cals".data)).nutrition_data).map AiNutri.calories =
      some ((400 : ℕ) : ℚ) ∧
    ((parse_food_with_ai ⟨false, .ok none, none⟩
        ("i ate muffin 400 cals".data)).nutrition_data).map AiNutri.proteins = some 0 ∧
    ((parse_food_with_ai ⟨false, .ok none, none⟩
        ("i ate muffin 400 cals".data)).nutrition_data).map AiNutri.carbs = some 0 ∧
    ((parse_food_with_ai ⟨false, .ok none, none⟩
        ("i ate muffin 400 cals".data)).nutrition_data).map AiNutri.fats = some 0 ∧
    ((parse_food_with_ai ⟨false, .ok none, none⟩
        ("i ate muffin 400 cals".data)).nutrition_data).map AiNutri.source =
      some ("Fallback".data) ∧
    ((parse_food_with_ai ⟨false, .ok none, none⟩
        ("i ate muffin 400 cals".data)).nutrition_data).map AiNutri.confidence =
      some ("low".data) :=
  claim_C5_fallback_explicit_calories ⟨false, .ok none, none⟩
    ("i ate muffin 400 cals".data) 400 rfl (by decide) (by decide)

/-! ### No quantity scaling in the AI parser (C10) -/

/-- Claim C10: `parse_food_with_ai` never multiplies nutrition values by
the parsed quantity.  When the AI stage terminates the chain, the returned
nutrition values are the dict's self-reported values verbatim while the
quantity is reported separately; when the AI stage fails or is not
configured, the result is `_fallback_parse`'s, whose calories are the raw
extracted token and whose quantity is the raw extracted count, again with
no multiplication. -/
theorem claim_C10_ai_no_quantity_scaling (env : AiEnv) (msg : List Char) (d : AiDict) :
    (env.bedrockConfigured = true → env.aiReply = .ok (some d) →
      (parse_food_with_ai env msg).nutrition_data =
        some ⟨d.food_name.getD ("Unknown Food".data), d.calories.getD 0, d.carbs.getD 0,
              d.proteins.getD 0, d.fats.getD 0, "AI Analysis".data,
              d.confidence.getD ("low".data), some (d.notes.getD [])⟩ ∧
      (parse_food_with_ai env msg).quantity = d.quantity.getD 1) ∧
    (env.bedrockConfigured = true → ((∃ e, env.aiReply = .error e) ∨ env.aiReply = .ok none) →
      parse_food_with_ai env msg = fallback_parse msg) ∧
    (env.bedrockConfigured = false →
      ((parse_food_with_ai env msg).nutrition_data).map AiNutri.calories =
        some (((searchCalNum (pyLowerL msg)).getD 0 : ℕ) : ℚ) ∧
      (parse_food_with_ai env msg).quantity =
        ((((scanFirst fbQuantAt (pyLowerL msg)).map Prod.fst).getD 1 : ℕ) : ℚ)) := by
  refine ⟨?_, ?_, ?_⟩
  · intro hb hr
    simp [parse_food_with_ai, hb, hr, aiResult]
  · intro hb hr
    rcases hr with ⟨e, he⟩ | he <;> simp [parse_food_with_ai, hb, he]
  · intro hb
    simp [parse_food_with_ai, hb, fallback_parse]

theorem claim_C10_witness :
    (parse_food_with_ai
      ⟨true, .ok (some ⟨some ("chicken wings".data), some 6, none, some 120, some 11, some 0,
                        some 8, none, none, none⟩), none⟩
      ("6 chicken wings".data)).nutrition_data =
      some ⟨"chicken wings".data, 120, 0, 11, 8, "AI Analysis".data, "low".data, some []⟩ ∧
    (parse_food_with_ai
      ⟨true, .ok (some ⟨some ("chicken wings".data), some 6, none, some 120, some 11, some 0,
                        some 8, none, none, none⟩), none⟩
      ("6 chicken wings".data)).quantity = 6 :=
  (claim_C10_ai_no_quantity_scaling
    ⟨true, .ok (some ⟨some ("chicken wings".data), some 6, none, some 120, some 11, some 0,
                      some 8, none, none, none⟩), none⟩
    ("6 chicken wings".data)
    ⟨some ("chicken wings".data), some 6, none, some 120, some 11, some 0,
     some 8, none, none, none⟩).1 rfl rfl

/-! ### ParsedFood invariants (C6) -/

/-- Counterexample to C6: the input `" and "` takes the multi-item branch,
every segment strips to empty, and the resulting quantity is `0` — not a
positive integer, and not `1` although no quantity pattern matched. -/
theorem claim_C6_counterexample : (parse_food_message (" and ".data)).quantity = 0 := by
  decide

/-- Claim C6 (amended): `parse_food_message` returns a nonnegative
quantity; whenever `items` is non-empty, `food_name` is the items' names
joined with `" + "` and `quantity = len(items)`; in the two compound
branches `quantity = len(items)` even when that is 0 (all segments empty);
and in the single-item branch `items` is empty and the quantity defaults
to 1 exactly when no quantity pattern matches. -/
theorem claim_C6_parsed_food_invariants (msg : List Char) :
    ((parse_food_message msg).items ≠ [] →
      (parse_food_message msg).food_name = joinPlus (parse_food_message msg).items ∧
      (parse_food_message msg).quantity = (parse_food_message msg).items.length) ∧
    ((searchCalNum (stripPrefixPhrase (pyLowerL msg))).isSome = true ∨
     (containsSub (' ' :: 'a' :: 'n' :: 'd' :: ' ' :: []) (stripPrefixPhrase (pyLowerL msg)) ||
      containsSub (' ' :: '&' :: ' ' :: []) (stripPrefixPhrase (pyLowerL msg))) = true →
      (parse_food_message msg).quantity = (parse_food_message msg).items.length) ∧
    ((searchCalNum (stripPrefixPhrase (pyLowerL msg))).isSome = false →
     (containsSub (' ' :: 'a' :: 'n' :: 'd' :: ' ' :: []) (stripPrefixPhrase (pyLowerL msg)) ||
      containsSub (' ' :: '&' :: ' ' :: []) (stripPrefixPhrase (pyLowerL msg))) = false →
      (parse_food_message msg).items = [] ∧
      (find_quantity (stripPrefixPhrase (pyLowerL msg)) = none →
        (parse_food_message msg).quantity = 1)) := by
  by_cases h1 : (searchCalNum (stripPrefixPhrase (pyLowerL msg))).isSome
  · refine ⟨?_, ?_, ?_⟩
    · intro _
      simp [parse_food_message, h1, parse_with_calories]
    · intro _
      simp [parse_food_message, h1, parse_with_calories]
    · intro hfalse
      rw [h1] at hfalse; exact absurd hfalse (by simp)
  · by_cases h2 : (containsSub (' ' :: 'a' :: 'n' :: 'd' :: ' ' :: []) (stripPrefixPhrase (pyLowerL msg)) ||
      containsSub (' ' :: '&' :: ' ' :: []) (stripPrefixPhrase (pyLowerL msg))) = true
    · refine ⟨?_, ?_, ?_⟩
      · intro _
        simp [parse_food_message, h1, h2, parse_multiple_items]
      · intro _
        simp [parse_food_message, h1, h2, parse_multiple_items]
      · intro _ hfalse
        rw [h2] at hfalse; exact absurd hfalse (by simp)
    · have h2' : (containsSub (' ' :: 'a' :: 'n' :: 'd' :: ' ' :: []) (stripPrefixPhrase (pyLowerL msg)) ||
        containsSub (' ' :: '&' :: ' ' :: []) (stripPrefixPhrase (pyLowerL msg))) = false := by
        simpa using h2
      refine ⟨?_, ?_, ?_⟩
      · intro hne
        exfalso
        apply hne
        simp only [parse_food_message, h1, h2']
        cases hq : find_quantity (stripPrefixPhrase (pyLowerL msg)) with
        | none => simp [hq]
        | some qn => rcases qn with ⟨q, nm⟩; simp [hq]
      · intro hdisj
        rcases hdisj with hh | hh
        · exact absurd hh h1
        · exact absurd hh h2
      · intro _ _
        constructor
        · simp only [parse_food_message, h1, h2']
          cases hq : find_quantity (stripPrefixPhrase (pyLowerL msg)) with
          | none => simp [hq]
          | some qn => rcases qn with ⟨q, nm⟩; simp [hq]
        · intro hq
          simp [parse_food_message, h1, h2', hq]

theorem claim_C6_witness :
    ((parse_food_message ("dal & rice".data)).items ≠ [] →
      (parse_food_message ("dal & rice".data)).food_name =
        joinPlus (parse_food_message ("dal & rice".data)).items ∧
      (parse_food_message ("dal & rice".data)).quantity =
        (parse_food_message ("dal & rice".data)).items.length) ∧
    (parse_food_message ("dal & rice".data)).food_name = "dal + rice".data ∧
    (parse_food_message ("dal & rice".data)).quantity = 2 :=
  ⟨(claim_C6_parsed_food_invariants ("dal & rice".data)).1, by decide, by decide⟩

/-! ### Character-class facts (towards C1) -/

theorem lcAlphaB_iff (c : Char) : lcAlphaB c = true ↔ (97 ≤ c.toNat ∧ c.toNat ≤ 122) := by
  simp [lcAlphaB]

theorem isDigitB_iff (c : Char) : isDigitB c = true ↔ (48 ≤ c.toNat ∧ c.toNat ≤ 57) := by
  simp [isDigitB]

theorem alpha_ne_of {c : Char} (h : lcAlphaB c = true) (d : Char) (hd : lcAlphaB d = false) :
    c ≠ d := by
  intro he; subst he; rw [h] at hd; cases hd

theorem alpha_not_ws {c : Char} (h : lcAlphaB c = true) : isPyWs c = false := by
  rw [lcAlphaB_iff] at h
  have : ¬ (c.toNat = 32 ∨ c.toNat = 9 ∨ c.toNat = 10 ∨ c.toNat = 13 ∨
      c.toNat = 11 ∨ c.toNat = 12) := by omega
  simpa [isPyWs] using this

theorem alpha_not_digit {c : Char} (h : lcAlphaB c = true) : isDigitB c = false := by
  rw [lcAlphaB_iff] at h
  have : ¬ (48 ≤ c.toNat ∧ c.toNat ≤ 57) := by omega
  simpa [isDigitB] using this

theorem digit_not_ws {c : Char} (h : isDigitB c = true) : isPyWs c = false := by
  rw [isDigitB_iff] at h
  have : ¬ (c.toNat = 32 ∨ c.toNat = 9 ∨ c.toNat = 10 ∨ c.toNat = 13 ∨
      c.toNat = 11 ∨ c.toNat = 12) := by omega
  simpa [isPyWs] using this

theorem digit_ne_of {c : Char} (h : isDigitB c = true) (d : Char) (hd : isDigitB d = false) :
    c ≠ d := by
  intro he; subst he; rw [h] at hd; cases hd

theorem alpha_pyLower {c : Char} (h : lcAlphaB c = true) : pyLower c = c := by
  rw [lcAlphaB_iff] at h
  unfold pyLower
  rw [if_neg]
  omega

theorem pyLower_of_toNat {c : Char} (h : c.toNat < 65 ∨ 90 < c.toNat) : pyLower c = c := by
  unfold pyLower
  rw [if_neg]
  omega

/-! ### takeWhile / dropWhile over concatenations -/

theorem takeWhile_all_append (p : Char → Bool) :
    ∀ (pre : List Char) (c : Char) (t : List Char),
      (∀ a ∈ pre, p a = true) → p c = false →
      (pre ++ c :: t).takeWhile p = pre := by
  intro pre
  induction pre with
  | nil => intro c t _ hc; simp [hc]
  | cons a pre' ih =>
    intro c t h hc
    have ha : p a = true := h a (by simp)
    simp only [List.cons_append, List.takeWhile_cons_of_pos ha]
    rw [ih c t (fun b hb => h b (by simp [hb])) hc]

theorem dropWhile_all_append (p : Char → Bool) :
    ∀ (pre : List Char) (c : Char) (t : List Char),
      (∀ a ∈ pre, p a = true) → p c = false →
      (pre ++ c :: t).dropWhile p = c :: t := by
  intro pre
  induction pre with
  | nil => intro c t _ hc; simp [hc]
  | cons a pre' ih =>
    intro c t h hc
    have ha : p a = true := h a (by simp)
    simp only [List.cons_append, List.dropWhile_cons_of_pos ha]
    exact ih c t (fun b hb => h b (by simp [hb])) hc

theorem length_dropWhile_le (p : Char → Bool) (l : List Char) :
    (l.dropWhile p).length ≤ l.length := by
  induction l with
  | nil => simp
  | cons a t ih =>
    by_cases h : p a
    · rw [List.dropWhile_cons_of_pos h]; exact Nat.le_succ_of_le ih
    · rw [List.dropWhile_cons_of_neg h]

/-! ### scanFirst and subAll over concatenations -/

theorem scanFirst_append {α : Type} (f : List Char → Option α) (P : Char → Prop)
    (hf : ∀ c t, P c → f (c :: t) = none) :
    ∀ (pre rest : List Char), (∀ c ∈ pre, P c) →
      scanFirst f (pre ++ rest) = scanFirst f rest := by
  intro pre
  induction pre with
  | nil => intro rest _; rfl
  | cons c pre' ih =>
    intro rest h
    simp only [List.cons_append, scanFirst, hf c _ (h c (by simp))]
    exact ih rest (fun b hb => h b (by simp [hb]))

theorem subAll_append (f : List Char → Option (List Char)) (P : Char → Prop)
    (hf : ∀ c t, P c → f (c :: t) = none) :
    ∀ (pre : List Char) (rest : List Char) (n : ℕ), (∀ c ∈ pre, P c) →
      (pre ++ rest).length ≤ n →
      subAll f n (pre ++ rest) = pre ++ subAll f (n - pre.length) rest := by
  intro pre
  induction pre with
  | nil => intro rest n _ _; simp
  | cons c pre' ih =>
    intro rest n h hn
    cases n with
    | zero => simp at hn
    | succ m =>
      simp only [List.cons_append, subAll, hf c _ (h c (by simp)), List.append_eq]
      rw [ih rest m (fun b hb => h b (by simp [hb])) (by simpa using hn)]
      simp [Nat.succ_sub_succ]

theorem subAll_eq_self (f : List Char → Option (List Char)) (P : Char → Prop)
    (hf : ∀ c t, P c → f (c :: t) = none) :
    ∀ (l : List Char) (n : ℕ), (∀ c ∈ l, P c) → subAll f n l = l := by
  intro l
  induction l with
  | nil => intro n _; cases n <;> rfl
  | cons c t ih =>
    intro n h
    cases n with
    | zero => rfl
    | succ m =>
      simp only [subAll, hf c _ (h c (by simp))]
      rw [ih m (fun b hb => h b (by simp [hb]))]

theorem subAll_match (f : List Char → Option (List Char)) (c : Char) (cs r : List Char)
    (n : ℕ) (h : f (c :: cs) = some r) : subAll f (n + 1) (c :: cs) = subAll f n r := by
  simp [subAll, h]

theorem subAll_nil (f : List Char → Option (List Char)) (n : ℕ) : subAll f n [] = [] := by
  cases n <;> rfl


/-! ### Words and names -/

theorem goodWord_all {w : List Char} (hw : goodWordB w = true) :
    ∀ a ∈ w, lcAlphaB a = true := by
  intro a ha
  simp [goodWordB, List.all_eq_true] at hw
  exact hw.2 a ha

theorem goodWord_ne_nil {w : List Char} (hw : goodWordB w = true) : w ≠ [] := by
  intro h
  rw [h] at hw
  simp [goodWordB] at hw

theorem goodWord_shape {w : List Char} (hw : goodWordB w = true) :
    ∃ a t, w = a :: t ∧ lcAlphaB a = true := by
  cases w with
  | nil => exact absurd rfl (goodWord_ne_nil hw)
  | cons a t => exact ⟨a, t, rfl, goodWord_all hw a (by simp)⟩

theorem nameW_single (w : List Char) : nameW (w :: []) = w := by
  simp [nameW, List.intercalate]

theorem nameW_cons (w w2 : List Char) (ws : List (List Char)) :
    nameW (w :: w2 :: ws) = w ++ ' ' :: nameW (w2 :: ws) := by
  simp [nameW, List.intercalate, List.intersperse]

theorem nameW_ne_nil (ws : List (List Char)) (hws : ∀ w ∈ ws, goodWordB w = true)
    (hne : ws ≠ []) : nameW ws ≠ [] := by
  cases ws with
  | nil => exact absurd rfl hne
  | cons w rest =>
    have hw : goodWordB w = true := hws w (by simp)
    obtain ⟨a, t, rfl, _⟩ := goodWord_shape hw
    cases rest with
    | nil => rw [nameW_single]; simp
    | cons w2 r2 => rw [nameW_cons]; simp

theorem nameW_chars (ws : List (List Char)) (hws : ∀ w ∈ ws, goodWordB w = true) :
    ∀ c ∈ nameW ws, lcAlphaB c = true ∨ c = ' ' := by
  induction ws with
  | nil => intro c hc; simp [nameW, List.intercalate] at hc
  | cons w rest ih =>
    intro c hc
    have hw : goodWordB w = true := hws w (by simp)
    cases rest with
    | nil =>
      rw [nameW_single] at hc
      exact Or.inl (goodWord_all hw c hc)
    | cons w2 r2 =>
      rw [nameW_cons] at hc
      rcases List.mem_append.mp hc with h | h
      · exact Or.inl (goodWord_all hw c h)
      · rcases List.mem_cons.mp h with h | h
        · exact Or.inr h
        · exact ih (fun w' hw' => hws w' (by simp [hw'])) c h

theorem nameW_shape (ws : List (List Char)) (hws : ∀ w ∈ ws, goodWordB w = true)
    (hne : ws ≠ []) :
    ∃ a t, nameW ws = a :: t ∧ lcAlphaB a = true := by
  cases ws with
  | nil => exact absurd rfl hne
  | cons w rest =>
    have hw : goodWordB w = true := hws w (by simp)
    obtain ⟨a, t, rfl, ha⟩ := goodWord_shape hw
    cases rest with
    | nil => exact ⟨a, t, by rw [nameW_single], ha⟩
    | cons w2 r2 => exact ⟨a, t ++ ' ' :: nameW (w2 :: r2), by rw [nameW_cons]; simp, ha⟩

theorem word_getLast_alpha (w : List Char) (hw : goodWordB w = true) :
    ∀ c, w.getLast? = some c → lcAlphaB c = true := by
  rcases List.eq_nil_or_concat w with rfl | ⟨w', a, rfl⟩
  · exact absurd rfl (goodWord_ne_nil hw)
  · intro c hc
    rw [List.concat_eq_append] at hc hw
    rw [List.getLast?_append_cons] at hc
    simp at hc
    subst hc
    exact goodWord_all hw a (by simp)

theorem nameW_getLast_alpha (ws : List (List Char)) (hws : ∀ w ∈ ws, goodWordB w = true)
    (hne : ws ≠ []) :
    ∀ c, (nameW ws).getLast? = some c → lcAlphaB c = true := by
  induction ws with
  | nil => exact absurd rfl hne
  | cons w rest ih =>
    intro c hc
    have hw : goodWordB w = true := hws w (by simp)
    cases rest with
    | nil =>
      rw [nameW_single] at hc
      exact word_getLast_alpha w hw c hc
    | cons w2 r2 =>
      rw [nameW_cons, List.getLast?_append_cons] at hc
      have hrest : ∀ w' ∈ w2 :: r2, goodWordB w' = true :=
        fun w' hw' => hws w' (by simp [hw'])
      obtain ⟨d, t, hnw, _⟩ := nameW_shape (w2 :: r2) hrest (by simp)
      rw [hnw, List.getLast?_cons_cons] at hc
      apply ih hrest (by simp) c
      rw [hnw]
      exact hc

/-! ### strip -/

theorem stripL_eq_self (l : List Char)
    (h1 : ∀ c, l.head? = some c → isPyWs c = false)
    (h2 : ∀ c, l.getLast? = some c → isPyWs c = false) : stripL l = l := by
  unfold stripL
  cases l with
  | nil => rfl
  | cons a t =>
    have ha := h1 a rfl
    have hd1 : List.dropWhile isPyWs (a :: t) = a :: t :=
      List.dropWhile_cons_of_neg (by simp [ha])
    rw [hd1]
    cases hr : (a :: t).reverse with
    | nil => simp at hr
    | cons b rb =>
      have hb : (a :: t).getLast? = some b := by
        rw [← List.head?_reverse, hr]; rfl
      have hbw := h2 b hb
      have hd2 : List.dropWhile isPyWs (b :: rb) = b :: rb :=
        List.dropWhile_cons_of_neg (by simp [hbw])
      rw [hd2, ← hr, List.reverse_reverse]

theorem stripL_concat_space (l : List Char)
    (h1 : ∀ c, l.head? = some c → isPyWs c = false)
    (h2 : ∀ c, l.getLast? = some c → isPyWs c = false) :
    stripL (l ++ (' ' :: [])) = l := by
  unfold stripL
  cases l with
  | nil => decide
  | cons a t =>
    have ha := h1 a rfl
    have hd1 : List.dropWhile isPyWs ((a :: t) ++ (' ' :: [])) = (a :: t) ++ (' ' :: []) := by
      rw [List.cons_append]
      exact List.dropWhile_cons_of_neg (by simp [ha])
    rw [hd1]
    have hrev : ((a :: t) ++ (' ' :: [])).reverse = ' ' :: (a :: t).reverse := by
      rw [List.reverse_append]; rfl
    rw [hrev, List.dropWhile_cons_of_pos (by decide)]
    cases hr : (a :: t).reverse with
    | nil => simp at hr
    | cons b rb =>
      have hb : (a :: t).getLast? = some b := by
        rw [← List.head?_reverse, hr]; rfl
      have hbw := h2 b hb
      have hd2 : List.dropWhile isPyWs (b :: rb) = b :: rb :=
        List.dropWhile_cons_of_neg (by simp [hbw])
      rw [hd2, ← hr, List.reverse_reverse]

/-! ### sepAt facts -/

theorem sepAt_cons_nonws (c : Char) (t : List Char) (hw : isPyWs c = false)
    (ha : c ≠ '&') : sepAt (c :: t) = none := by
  have hd : List.dropWhile isPyWs (c :: t) = c :: t :=
    List.dropWhile_cons_of_neg (by simp [hw])
  have htk : List.takeWhile isPyWs (c :: t) = [] :=
    List.takeWhile_cons_of_neg (by simp [hw])
  simp [sepAt, sepAmp, hd, htk, ha]

theorem sepAt_space_head (c : Char) (t : List Char) (hw : isPyWs c = false)
    (ha : c ≠ '&') (hna : c ≠ 'a') : sepAt (' ' :: c :: t) = none := by
  have htk : List.takeWhile isPyWs (' ' :: c :: t) = ' ' :: [] := by
    rw [List.takeWhile_cons_of_pos (by decide), List.takeWhile_cons_of_neg (by simp [hw])]
  have hd : List.dropWhile isPyWs (' ' :: c :: t) = c :: t := by
    rw [List.dropWhile_cons_of_pos (by decide)]
    exact List.dropWhile_cons_of_neg (by simp [hw])
  have hpre : ('a' :: 'n' :: 'd' :: []).isPrefixOf (c :: t) = false := by
    simp [List.isPrefixOf]
    intro h
    exact absurd h.symm hna
  simp [sepAt, sepAmp, htk, hd, hpre, ha]

theorem sepAt_gap (w : List Char) (z : List Char) (hw : goodWordB w = true)
    (hand : w ≠ ('a' :: 'n' :: 'd' :: [])) :
    sepAt (' ' :: w ++ ' ' :: z) = none := by
  obtain ⟨c0, t0, rfl, hc0⟩ := goodWord_shape hw
  simp only [List.cons_append]
  have hc0w : isPyWs c0 = false := alpha_not_ws hc0
  have hc0amp : c0 ≠ '&' := alpha_ne_of hc0 '&' (by decide)
  by_cases hpre : ('a' :: 'n' :: 'd' :: []).isPrefixOf (c0 :: (t0 ++ ' ' :: z)) = true
  · cases t0 with
    | nil => simp [List.isPrefixOf] at hpre
    | cons c1 t1 =>
      cases t1 with
      | nil => simp [List.isPrefixOf] at hpre
      | cons c2 t2 =>
        have hpre' := hpre
        simp only [List.cons_append, List.isPrefixOf, Bool.and_eq_true, beq_iff_eq] at hpre'
        obtain ⟨ha0, ha1, ha2, _⟩ := hpre'
        cases t2 with
        | nil =>
          exfalso
          apply hand
          rw [← ha0, ← ha1, ← ha2]
        | cons c3 t3 =>
          have hc3 : lcAlphaB c3 = true := goodWord_all hw c3 (by simp)
          have hc3w : isPyWs c3 = false := alpha_not_ws hc3
          subst ha0
          subst ha1
          subst ha2
          simp only [List.cons_append]
          have htk : List.takeWhile isPyWs
              (' ' :: 'a' :: 'n' :: 'd' :: c3 :: (t3 ++ ' ' :: z)) = ' ' :: [] := by
            rw [List.takeWhile_cons_of_pos (by decide),
                List.takeWhile_cons_of_neg (by decide)]
          have hd : List.dropWhile isPyWs
              (' ' :: 'a' :: 'n' :: 'd' :: c3 :: (t3 ++ ' ' :: z)) =
              'a' :: 'n' :: 'd' :: c3 :: (t3 ++ ' ' :: z) := by
            rw [List.dropWhile_cons_of_pos (by decide)]
            exact List.dropWhile_cons_of_neg (by decide)
          have htk3 : List.takeWhile isPyWs (c3 :: (t3 ++ ' ' :: z)) = [] :=
            List.takeWhile_cons_of_neg (by simp [hc3w])
          unfold sepAt sepAmp
          simp only [htk, hd, List.isPrefixOf, List.drop_succ_cons, List.drop_zero, htk3,
                     beq_self_eq_true, Bool.and_true, Bool.true_and, List.isEmpty_cons,
                     List.isEmpty_nil, Bool.not_true, Bool.not_false, Bool.false_and,
                     Bool.and_false, if_true, if_false]
          rfl
  · have htk : List.takeWhile isPyWs (' ' :: c0 :: (t0 ++ ' ' :: z)) = ' ' :: [] := by
      rw [List.takeWhile_cons_of_pos (by decide),
          List.takeWhile_cons_of_neg (by simp [hc0w])]
    have hd : List.dropWhile isPyWs (' ' :: c0 :: (t0 ++ ' ' :: z)) =
        c0 :: (t0 ++ ' ' :: z) := by
      rw [List.dropWhile_cons_of_pos (by decide)]
      exact List.dropWhile_cons_of_neg (by simp [hc0w])
    have hbpre : ('a' :: 'n' :: 'd' :: []).isPrefixOf (c0 :: (t0 ++ ' ' :: z)) = false :=
      Bool.eq_false_iff.mpr hpre
    unfold sepAt sepAmp
    simp only [htk, hd, hbpre, Bool.and_false, Bool.false_eq_true, if_false]
    rw [if_neg hc0amp]

theorem sepAt_fire (p2 : List Char) (c2 : Char) (t2 : List Char) (hp : p2 = c2 :: t2)
    (hw : isPyWs c2 = false) :
    sepAt (' ' :: 'a' :: 'n' :: 'd' :: ' ' :: p2) = some p2 := by
  subst hp
  have htk : List.takeWhile isPyWs (' ' :: 'a' :: 'n' :: 'd' :: ' ' :: c2 :: t2) = ' ' :: [] := by
    rw [List.takeWhile_cons_of_pos (by decide), List.takeWhile_cons_of_neg (by decide)]
  have hd : List.dropWhile isPyWs (' ' :: 'a' :: 'n' :: 'd' :: ' ' :: c2 :: t2) =
      'a' :: 'n' :: 'd' :: ' ' :: c2 :: t2 := by
    rw [List.dropWhile_cons_of_pos (by decide)]
    exact List.dropWhile_cons_of_neg (by decide)
  have htk2 : List.takeWhile isPyWs (' ' :: c2 :: t2) = ' ' :: [] := by
    rw [List.takeWhile_cons_of_pos (by decide), List.takeWhile_cons_of_neg (by simp [hw])]
  have hd2 : List.dropWhile isPyWs (' ' :: c2 :: t2) = c2 :: t2 := by
    rw [List.dropWhile_cons_of_pos (by decide)]
    exact List.dropWhile_cons_of_neg (by simp [hw])
  simp [sepAt, htk, hd, List.isPrefixOf, htk2, hd2]

theorem sepAt_shrink (l r : List Char) (h : sepAt l = some r) : r.length < l.length := by
  have hlen : (List.takeWhile isPyWs l).length + (List.dropWhile isPyWs l).length = l.length := by
    rw [← List.length_append, List.takeWhile_append_dropWhile]
  unfold sepAt sepAmp at h
  by_cases hb : (!(List.takeWhile isPyWs l).isEmpty &&
      ('a' :: 'n' :: 'd' :: []).isPrefixOf (List.dropWhile isPyWs l)) = true
  · rw [if_pos hb] at h
    have htkpos : 1 ≤ (List.takeWhile isPyWs l).length := by
      cases hl : List.takeWhile isPyWs l with
      | nil => rw [hl] at hb; simp at hb
      | cons x xs => simp [hl]
    by_cases hb2 : (!(List.takeWhile isPyWs ((List.dropWhile isPyWs l).drop 3)).isEmpty) = true
    · rw [if_pos hb2] at h
      injection h with h
      subst h
      have h3 := length_dropWhile_le isPyWs ((List.dropWhile isPyWs l).drop 3)
      have h4 : ((List.dropWhile isPyWs l).drop 3).length ≤ (List.dropWhile isPyWs l).length := by
        simp [List.length_drop]
      omega
    · rw [if_neg hb2] at h
      cases hd : List.dropWhile isPyWs l with
      | nil => rw [hd] at h; simp at h
      | cons c r2 =>
        rw [hd] at h
        by_cases hc : c = '&'
        · simp [hc] at h
          have hr : r.length ≤ r2.length := by
            rw [← h]
            exact length_dropWhile_le isPyWs r2
          have h4 : r2.length + 1 = (List.dropWhile isPyWs l).length := by rw [hd]; rfl
          omega
        · simp [hc] at h
  · rw [if_neg hb] at h
    cases hd : List.dropWhile isPyWs l with
    | nil => rw [hd] at h; simp at h
    | cons c r2 =>
      rw [hd] at h
      by_cases hc : c = '&'
      · simp [hc] at h
        have hr : r.length ≤ r2.length := by
          rw [← h]
          exact length_dropWhile_le isPyWs r2
        have h4 : r2.length + 1 = (List.dropWhile isPyWs l).length := by rw [hd]; rfl
        omega
      · simp [hc] at h

/-! ### splitAllGo machinery -/

theorem splitGo_nil (n : ℕ) (acc : List Char) : splitAllGo sepAt n acc [] = [acc.reverse] := by
  cases n <;> rfl

theorem splitGo_fuel : ∀ (k : ℕ) (n m : ℕ) (acc l : List Char),
    l.length ≤ k → l.length ≤ n → l.length ≤ m →
    splitAllGo sepAt n acc l = splitAllGo sepAt m acc l := by
  intro k
  induction k with
  | zero =>
    intro n m acc l hk _ _
    have : l = [] := List.length_eq_zero.mp (Nat.le_zero.mp hk)
    subst this
    rw [splitGo_nil, splitGo_nil]
  | succ k ih =>
    intro n m acc l hk hn hm
    cases l with
    | nil => rw [splitGo_nil, splitGo_nil]
    | cons c cs =>
      cases n with
      | zero => simp at hn
      | succ n' =>
        cases m with
        | zero => simp at hm
        | succ m' =>
          simp only [splitAllGo]
          simp only [List.length_cons] at hk hn hm
          cases hsep : sepAt (c :: cs) with
          | some r =>
            have hr : r.length < cs.length + 1 := by
              simpa using sepAt_shrink (c :: cs) r hsep
            have h1 : r.length ≤ k := by omega
            have h2 : r.length ≤ n' := by omega
            have h3 : r.length ≤ m' := by omega
            show acc.reverse :: splitAllGo sepAt n' [] r =
              acc.reverse :: splitAllGo sepAt m' [] r
            rw [ih n' m' [] r h1 h2 h3]
          | none =>
            have h1 : cs.length ≤ k := by omega
            have h2 : cs.length ≤ n' := by omega
            have h3 : cs.length ≤ m' := by omega
            show splitAllGo sepAt n' (c :: acc) cs = splitAllGo sepAt m' (c :: acc) cs
            exact ih n' m' (c :: acc) cs h1 h2 h3

theorem splitGo_pass : ∀ (pre : List Char),
    (∀ c ∈ pre, isPyWs c = false ∧ c ≠ '&') →
    ∀ (T acc : List Char) (n : ℕ), (pre ++ T).length ≤ n →
    splitAllGo sepAt n acc (pre ++ T) =
      splitAllGo sepAt T.length (pre.reverse ++ acc) T := by
  intro pre
  induction pre with
  | nil =>
    intro _ T acc n hn
    simp only [List.nil_append, List.reverse_nil]
    exact splitGo_fuel n n T.length acc T (by simpa using hn) (by simpa using hn) le_rfl
  | cons c pre' ih =>
    intro h T acc n hn
    cases n with
    | zero => simp at hn
    | succ n' =>
      have hc := h c (by simp)
      have hsep : sepAt (c :: (pre' ++ T)) = none := sepAt_cons_nonws c _ hc.1 hc.2
      show splitAllGo sepAt (n' + 1) acc (c :: (pre' ++ T)) =
        splitAllGo sepAt T.length ((c :: pre').reverse ++ acc) T
      simp only [splitAllGo, hsep]
      rw [ih (fun b hb => h b (by simp [hb])) T (c :: acc) n' (by simpa using hn)]
      simp [List.append_assoc]

theorem splitGo_step_space (T acc : List Char) (n : ℕ) (hsep : sepAt (' ' :: T) = none)
    (hn : (' ' :: T).length ≤ n) :
    splitAllGo sepAt n acc (' ' :: T) = splitAllGo sepAt T.length (' ' :: acc) T := by
  cases n with
  | zero => simp at hn
  | succ n' =>
    simp only [splitAllGo, hsep]
    exact splitGo_fuel n' n' T.length (' ' :: acc) T (by simpa using hn) (by simpa using hn) le_rfl

theorem splitGo_fire (p2 : List Char) (c2 : Char) (t2 : List Char) (hp : p2 = c2 :: t2)
    (hw : isPyWs c2 = false) (acc : List Char) (n : ℕ)
    (hn : (' ' :: 'a' :: 'n' :: 'd' :: ' ' :: p2).length ≤ n) :
    splitAllGo sepAt n acc (' ' :: 'a' :: 'n' :: 'd' :: ' ' :: p2) =
      acc.reverse :: splitAllGo sepAt p2.length [] p2 := by
  cases n with
  | zero => simp at hn
  | succ n' =>
    simp only [splitAllGo, sepAt_fire p2 c2 t2 hp hw]
    rw [splitGo_fuel n' n' p2.length [] p2 (by simp at hn; omega) (by simp at hn; omega) le_rfl]

theorem splitGo_name : ∀ (ws : List (List Char)),
    (∀ w ∈ ws, goodWordB w = true) → (∀ w ∈ ws, w ≠ ('a' :: 'n' :: 'd' :: [])) → ws ≠ [] →
    ∀ (R acc : List Char) (n : ℕ), sepAt (' ' :: R) = none →
    (nameW ws ++ ' ' :: R).length ≤ n →
    splitAllGo sepAt n acc (nameW ws ++ ' ' :: R) =
      splitAllGo sepAt R.length (' ' :: ((nameW ws).reverse ++ acc)) R := by
  intro ws
  induction ws with
  | nil => intro _ _ hne; exact absurd rfl hne
  | cons w rest ih =>
    intro hgood hand _ R acc n hR hn
    have hw : goodWordB w = true := hgood w (by simp)
    have hwp : ∀ c ∈ w, isPyWs c = false ∧ c ≠ '&' := by
      intro c hc
      have ha := goodWord_all hw c hc
      exact ⟨alpha_not_ws ha, alpha_ne_of ha '&' (by decide)⟩
    cases rest with
    | nil =>
      rw [nameW_single] at hn ⊢
      rw [splitGo_pass w hwp (' ' :: R) acc n hn]
      exact splitGo_step_space R (w.reverse ++ acc) (' ' :: R).length hR le_rfl
    | cons w2 r2 =>
      rw [nameW_cons] at hn ⊢
      have hw2 : goodWordB w2 = true := hgood w2 (by simp)
      have hshape : ∃ Z, nameW (w2 :: r2) ++ ' ' :: R = w2 ++ ' ' :: Z := by
        cases r2 with
        | nil => exact ⟨R, by rw [nameW_single]⟩
        | cons w3 r3 => exact ⟨nameW (w3 :: r3) ++ ' ' :: R, by rw [nameW_cons]; simp⟩
      obtain ⟨Z, hZ⟩ := hshape
      have hgap : sepAt (' ' :: (nameW (w2 :: r2) ++ ' ' :: R)) = none := by
        rw [hZ]
        rw [show ' ' :: (w2 ++ ' ' :: Z) = ' ' :: w2 ++ ' ' :: Z by simp]
        exact sepAt_gap w2 Z hw2 (hand w2 (by simp))
      have hassoc : (w ++ ' ' :: nameW (w2 :: r2)) ++ ' ' :: R =
          w ++ (' ' :: (nameW (w2 :: r2) ++ ' ' :: R)) := by simp
      rw [hassoc]
      rw [splitGo_pass w hwp (' ' :: (nameW (w2 :: r2) ++ ' ' :: R)) acc n
          (by rw [← hassoc]; exact hn)]
      rw [splitGo_step_space (nameW (w2 :: r2) ++ ' ' :: R) (w.reverse ++ acc) _ hgap le_rfl]
      rw [ih (fun w' h' => hgood w' (by simp [h'])) (fun w' h' => hand w' (by simp [h']))
          (by simp) R (' ' :: (w.reverse ++ acc)) (nameW (w2 :: r2) ++ ' ' :: R).length
          hR le_rfl]
      congr 1
      simp [List.reverse_append]

/-! ### Calorie-token matchers on the compound segments -/

theorem calAt_cons_nondigit (c : Char) (t : List Char) (h : isDigitB c = false) :
    calAt (c :: t) = none := by
  have htk : (c :: t).takeWhile isDigitB = [] := List.takeWhile_cons_of_neg (by simp [h])
  simp [calAt, htk]

theorem calTokAt_cons_nondigit (c : Char) (t : List Char) (h : isDigitB c = false) :
    calTokAt (c :: t) = none := by
  have htk : (c :: t).takeWhile isDigitB = [] := List.takeWhile_cons_of_neg (by simp [h])
  simp [calTokAt, htk]

theorem parenCalAt_cons_ne (c : Char) (t : List Char) (h : c ≠ '(') :
    parenCalAt (c :: t) = none := by
  simp [parenCalAt, h]

theorem calAt_digits (da : List Char) (hne : da ≠ []) (hdig : ∀ c ∈ da, isDigitB c = true)
    (rest : List Char) :
    calAt (da ++ ' ' :: 'c' :: 'a' :: 'l' :: rest) = some (digitsToNat da) := by
  have htk : (da ++ ' ' :: 'c' :: 'a' :: 'l' :: rest).takeWhile isDigitB = da :=
    takeWhile_all_append isDigitB da ' ' _ hdig (by decide)
  have hdw : (da ++ ' ' :: 'c' :: 'a' :: 'l' :: rest).dropWhile isDigitB =
      ' ' :: 'c' :: 'a' :: 'l' :: rest :=
    dropWhile_all_append isDigitB da ' ' _ hdig (by decide)
  have hdw2 : List.dropWhile isPyWs (' ' :: 'c' :: 'a' :: 'l' :: rest) =
      'c' :: 'a' :: 'l' :: rest := by
    rw [List.dropWhile_cons_of_pos (by decide)]
    exact List.dropWhile_cons_of_neg (by decide)
  have hemp : da.isEmpty = false := by
    cases da with
    | nil => exact absurd rfl hne
    | cons d t => rfl
  simp [calAt, htk, hdw, hdw2, hemp, List.isPrefixOf]

theorem scanFirst_here {α : Type} (f : List Char → Option α) (c : Char) (t : List Char)
    (v : α) (h : f (c :: t) = some v) : scanFirst f (c :: t) = some v := by
  simp [scanFirst, h]

theorem searchCal_name_paren (ws : List (List Char)) (hws : ∀ w ∈ ws, goodWordB w = true)
    (da : List Char) (hne : da ≠ []) (hdig : ∀ c ∈ da, isDigitB c = true) (rest : List Char) :
    searchCalNum (nameW ws ++ ' ' :: '(' :: (da ++ ' ' :: 'c' :: 'a' :: 'l' :: rest)) =
      some (digitsToNat da) := by
  have hassoc : nameW ws ++ ' ' :: '(' :: (da ++ ' ' :: 'c' :: 'a' :: 'l' :: rest) =
      (nameW ws ++ (' ' :: '(' :: [])) ++ (da ++ ' ' :: 'c' :: 'a' :: 'l' :: rest) := by
    simp
  have hpre : ∀ c ∈ nameW ws ++ (' ' :: '(' :: []), isDigitB c = false := by
    intro c hc
    rcases List.mem_append.mp hc with h | h
    · rcases nameW_chars ws hws c h with h' | h'
      · exact alpha_not_digit h'
      · subst h'; decide
    · rcases List.mem_cons.mp h with h' | h'
      · subst h'; decide
      · simp at h'; subst h'; decide
  unfold searchCalNum
  rw [hassoc, scanFirst_append calAt (fun c => isDigitB c = false)
      (fun c t hc => calAt_cons_nondigit c t hc) _ _ hpre]
  obtain ⟨d0, da', rfl⟩ : ∃ d0 da', da = d0 :: da' := by
    cases da with
    | nil => exact absurd rfl hne
    | cons d0 da' => exact ⟨d0, da', rfl⟩
  rw [show (d0 :: da') ++ ' ' :: 'c' :: 'a' :: 'l' :: rest =
      d0 :: (da' ++ ' ' :: 'c' :: 'a' :: 'l' :: rest) from rfl]
  apply scanFirst_here
  rw [show d0 :: (da' ++ ' ' :: 'c' :: 'a' :: 'l' :: rest) =
      (d0 :: da') ++ ' ' :: 'c' :: 'a' :: 'l' :: rest from rfl]
  exact calAt_digits (d0 :: da') (by simp) hdig rest

/-! ### Splitting the compound message -/

theorem goodName_facts {ws : List (List Char)} (h : goodNameB ws = true) :
    ws ≠ [] ∧ (∀ w ∈ ws, goodWordB w = true) ∧
      (∀ w ∈ ws, w ≠ ('a' :: 'n' :: 'd' :: [])) := by
  simp only [goodNameB, Bool.and_eq_true, List.all_eq_true] at h
  obtain ⟨⟨⟨h1, h2⟩, h3⟩, _⟩ := h
  refine ⟨?_, ?_, ?_⟩
  · intro he
    subst he
    simp at h1
  · intro w hw
    exact h2 w hw
  · intro w hw
    have := h3 w hw
    simpa using this

theorem goodName_headword {ws : List (List Char)} (h : goodNameB ws = true) :
    ∃ w rest, ws = w :: rest ∧ w ≠ ('i' :: []) ∧ w ≠ ('a' :: 't' :: 'e' :: []) ∧
      w ≠ ('j' :: 'u' :: 's' :: 't' :: []) := by
  simp only [goodNameB, Bool.and_eq_true, List.all_eq_true] at h
  obtain ⟨⟨⟨h1, _⟩, _⟩, h4⟩ := h
  cases ws with
  | nil => simp at h1
  | cons w rest =>
    simp only [List.head?_cons] at h4
    simp only [Bool.and_eq_true, Bool.not_eq_true', beq_eq_false_iff_ne, ne_eq] at h4
    exact ⟨w, rest, rfl, h4.1.1, h4.1.2, h4.2⟩

theorem splitGo_paren_cals (da : List Char) (hne : da ≠ [])
    (hdig : ∀ c ∈ da, isDigitB c = true) (T acc : List Char) (n : ℕ)
    (hn : ('(' :: (da ++ (' ' :: 'c' :: 'a' :: 'l' :: 's' :: ')' :: T))).length ≤ n) :
    splitAllGo sepAt n acc ('(' :: (da ++ (' ' :: 'c' :: 'a' :: 'l' :: 's' :: ')' :: T))) =
      splitAllGo sepAt T.length
        (')' :: 's' :: 'l' :: 'a' :: 'c' :: ' ' :: (da.reverse ++ ('(' :: acc))) T := by
  have hsh : '(' :: (da ++ (' ' :: 'c' :: 'a' :: 'l' :: 's' :: ')' :: T)) =
      ('(' :: da) ++ (' ' :: ('c' :: 'a' :: 'l' :: 's' :: ')' :: T)) := by simp
  have hchars : ∀ c ∈ '(' :: da, isPyWs c = false ∧ c ≠ '&' := by
    intro c hc
    rcases List.mem_cons.mp hc with h | h
    · subst h; exact ⟨by decide, by decide⟩
    · exact ⟨digit_not_ws (hdig c h), digit_ne_of (hdig c h) '&' (by decide)⟩
  rw [hsh, splitGo_pass ('(' :: da) hchars _ acc n (by rw [← hsh]; exact hn)]
  rw [splitGo_step_space ('c' :: 'a' :: 'l' :: 's' :: ')' :: T)
      (('(' :: da).reverse ++ acc) _
      (sepAt_space_head 'c' _ (by decide) (by decide) (by decide)) le_rfl]
  have hsh2 : 'c' :: 'a' :: 'l' :: 's' :: ')' :: T =
      ('c' :: 'a' :: 'l' :: 's' :: ')' :: []) ++ T := by simp
  rw [hsh2, splitGo_pass ('c' :: 'a' :: 'l' :: 's' :: ')' :: []) (by decide) T _ _
      (by simp)]
  congr 1
  simp

theorem splitSep_compound (x y : List (List Char)) (da db : List Char)
    (hx : goodNameB x = true) (hy : goodNameB y = true)
    (hdane : da ≠ []) (hdad : ∀ c ∈ da, isDigitB c = true)
    (hdbne : db ≠ []) (hdbd : ∀ c ∈ db, isDigitB c = true) :
    splitSep (compoundMsg x y da db) =
      [nameW x ++ ' ' :: '(' :: (da ++ (' ' :: 'c' :: 'a' :: 'l' :: 's' :: ')' :: [])),
       nameW y ++ ' ' :: '(' :: (db ++ (' ' :: 'c' :: 'a' :: 'l' :: 's' :: ')' :: []))] := by
  obtain ⟨hxne, hxw, hxand⟩ := goodName_facts hx
  obtain ⟨hyne, hyw, hyand⟩ := goodName_facts hy
  have hM : compoundMsg x y da db =
      nameW x ++ ' ' :: ('(' :: (da ++ (' ' :: 'c' :: 'a' :: 'l' :: 's' :: ')' ::
        (' ' :: 'a' :: 'n' :: 'd' :: ' ' ::
          (nameW y ++ ' ' :: ('(' :: (db ++ (' ' :: 'c' :: 'a' :: 'l' :: 's' :: ')' :: [])))))))) := by
    simp [compoundMsg]
  unfold splitSep
  rw [hM]
  rw [splitGo_name x hxw hxand hxne _ []
      (nameW x ++ ' ' :: ('(' :: (da ++ (' ' :: 'c' :: 'a' :: 'l' :: 's' :: ')' ::
        (' ' :: 'a' :: 'n' :: 'd' :: ' ' ::
          (nameW y ++ ' ' :: ('(' :: (db ++ (' ' :: 'c' :: 'a' :: 'l' :: 's' :: ')' :: []))))))))).length
      (sepAt_space_head '(' _ (by decide) (by decide) (by decide)) le_rfl]
  rw [splitGo_paren_cals da hdane hdad _ _ _ le_rfl]
  obtain ⟨a2, t2, hny, ha2⟩ := nameW_shape y hyw hyne
  have hp2 : nameW y ++ ' ' :: ('(' :: (db ++ (' ' :: 'c' :: 'a' :: 'l' :: 's' :: ')' :: []))) =
      a2 :: (t2 ++ ' ' :: ('(' :: (db ++ (' ' :: 'c' :: 'a' :: 'l' :: 's' :: ')' :: [])))) := by
    rw [hny]; simp
  rw [splitGo_fire _ a2 _ hp2 (alpha_not_ws ha2) _ _ le_rfl]
  rw [splitGo_name y hyw hyand hyne _ []
      (nameW y ++ ' ' :: ('(' :: (db ++ (' ' :: 'c' :: 'a' :: 'l' :: 's' :: ')' :: [])))).length
      (sepAt_space_head '(' _ (by decide) (by decide) (by decide)) le_rfl]
  rw [splitGo_paren_cals db hdbne hdbd _ _ _ le_rfl]
  rw [splitGo_nil]
  congr 1
  · simp
  · congr 1
    simp

/-! ### Cleaning a compound segment -/

theorem parenCal_fire (da : List Char) (hne : da ≠ [])
    (hdig : ∀ c ∈ da, isDigitB c = true) :
    parenCalAt ('(' :: (da ++ (' ' :: 'c' :: 'a' :: 'l' :: 's' :: ')' :: []))) = some [] := by
  have htk : (da ++ ' ' :: 'c' :: 'a' :: 'l' :: 's' :: ')' :: []).takeWhile isDigitB = da :=
    takeWhile_all_append isDigitB da ' ' _ hdig (by decide)
  have hdw : (da ++ ' ' :: 'c' :: 'a' :: 'l' :: 's' :: ')' :: []).dropWhile isDigitB =
      ' ' :: 'c' :: 'a' :: 'l' :: 's' :: ')' :: [] :=
    dropWhile_all_append isDigitB da ' ' _ hdig (by decide)
  have hdw2 : List.dropWhile isPyWs (' ' :: 'c' :: 'a' :: 'l' :: 's' :: ')' :: []) =
      'c' :: 'a' :: 'l' :: 's' :: ')' :: [] := by
    rw [List.dropWhile_cons_of_pos (by decide)]
    exact List.dropWhile_cons_of_neg (by decide)
  have hemp : da.isEmpty = false := by
    cases da with
    | nil => exact absurd rfl hne
    | cons d t => rfl
  simp [parenCalAt, htk, hdw, hdw2, hemp]

theorem nameW_head_alpha (ws : List (List Char)) (hws : ∀ w ∈ ws, goodWordB w = true)
    (hne : ws ≠ []) :
    ∀ c, (nameW ws).head? = some c → lcAlphaB c = true := by
  intro c hc
  obtain ⟨a, t, hna, ha⟩ := nameW_shape ws hws hne
  rw [hna] at hc
  simp at hc
  subst hc
  exact ha

theorem clean_part (ws : List (List Char)) (hws : ∀ w ∈ ws, goodWordB w = true)
    (hne : ws ≠ []) (da : List Char) (hdane : da ≠ [])
    (hdig : ∀ c ∈ da, isDigitB c = true) :
    cleanCalName (nameW ws ++ ' ' :: '(' :: (da ++ (' ' :: 'c' :: 'a' :: 'l' :: 's' :: ')' :: []))) =
      nameW ws := by
  have hhead : ∀ c, (nameW ws).head? = some c → isPyWs c = false :=
    fun c hc => alpha_not_ws (nameW_head_alpha ws hws hne c hc)
  have hlast : ∀ c, (nameW ws).getLast? = some c → isPyWs c = false :=
    fun c hc => alpha_not_ws (nameW_getLast_alpha ws hws hne c hc)
  have hsh : nameW ws ++ ' ' :: '(' :: (da ++ (' ' :: 'c' :: 'a' :: 'l' :: 's' :: ')' :: [])) =
      (nameW ws ++ (' ' :: [])) ++ ('(' :: (da ++ (' ' :: 'c' :: 'a' :: 'l' :: 's' :: ')' :: []))) := by
    simp
  have hpre : ∀ c ∈ nameW ws ++ (' ' :: []), c ≠ '(' := by
    intro c hc
    rcases List.mem_append.mp hc with h | h
    · rcases nameW_chars ws hws c h with h' | h'
      · exact alpha_ne_of h' '(' (by decide)
      · subst h'; decide
    · simp at h; subst h; decide
  have hndig : ∀ c ∈ nameW ws, isDigitB c = false := by
    intro c hc
    rcases nameW_chars ws hws c hc with h' | h'
    · exact alpha_not_digit h'
    · subst h'; decide
  unfold cleanCalName
  have hsub1 : subAll parenCalAt
      (nameW ws ++ ' ' :: '(' :: (da ++ (' ' :: 'c' :: 'a' :: 'l' :: 's' :: ')' :: []))).length
      (nameW ws ++ ' ' :: '(' :: (da ++ (' ' :: 'c' :: 'a' :: 'l' :: 's' :: ')' :: []))) =
      nameW ws ++ (' ' :: []) := by
    rw [hsh]
    rw [subAll_append parenCalAt (fun c => c ≠ '(')
        (fun c t hc => parenCalAt_cons_ne c t hc) _ _ _ hpre (by rw [← hsh])]
    have harith : ((nameW ws ++ (' ' :: [])) ++
        ('(' :: (da ++ (' ' :: 'c' :: 'a' :: 'l' :: 's' :: ')' :: [])))).length -
        (nameW ws ++ (' ' :: [])).length =
        (da ++ (' ' :: 'c' :: 'a' :: 'l' :: 's' :: ')' :: [])).length + 1 := by
      simp only [List.length_append, List.length_cons, List.length_nil]
      omega
    rw [harith, subAll_match parenCalAt '(' _ []
        (da ++ (' ' :: 'c' :: 'a' :: 'l' :: 's' :: ')' :: [])).length
        (parenCal_fire da hdane hdig), subAll_nil]
    simp
  rw [hsub1]
  have hstrip1 : stripL (nameW ws ++ (' ' :: [])) = nameW ws :=
    stripL_concat_space (nameW ws) hhead hlast
  rw [hstrip1]
  have hsub2 : subAll calTokAt (nameW ws).length (nameW ws) = nameW ws :=
    subAll_eq_self calTokAt (fun c => isDigitB c = false)
      (fun c t hc => calTokAt_cons_nondigit c t hc) _ _ hndig
  show stripL (subAll calTokAt (nameW ws).length (nameW ws)) = nameW ws
  rw [hsub2]
  exact stripL_eq_self (nameW ws) hhead hlast

/-! ### Lower-casing and prefix stripping leave the compound message unchanged -/

theorem pyLowerL_eq_self (l : List Char) (h : ∀ c ∈ l, pyLower c = c) : pyLowerL l = l := by
  induction l with
  | nil => rfl
  | cons a t ih =>
    unfold pyLowerL
    rw [List.map_cons, h a (by simp)]
    have := ih (fun c hc => h c (by simp [hc]))
    unfold pyLowerL at this
    rw [this]

theorem pyLower_digit {c : Char} (h : isDigitB c = true) : pyLower c = c := by
  rw [isDigitB_iff] at h
  exact pyLower_of_toNat (by omega)

theorem pyLower_compound (x y : List (List Char)) (da db : List Char)
    (hxw : ∀ w ∈ x, goodWordB w = true) (hyw : ∀ w ∈ y, goodWordB w = true)
    (hdad : ∀ c ∈ da, isDigitB c = true) (hdbd : ∀ c ∈ db, isDigitB c = true) :
    pyLowerL (compoundMsg x y da db) = compoundMsg x y da db := by
  apply pyLowerL_eq_self
  intro c hc
  unfold compoundMsg at hc
  have hname : ∀ (ws : List (List Char)), (∀ w ∈ ws, goodWordB w = true) →
      c ∈ nameW ws → pyLower c = c := by
    intro ws hws hm
    rcases nameW_chars ws hws c hm with h' | h'
    · exact alpha_pyLower h'
    · subst h'; decide
  have hconc1 : c ∈ (' ' :: '(' :: []) → pyLower c = c := by
    intro h; rcases List.mem_cons.mp h with rfl | h
    · decide
    · simp at h; subst h; decide
  have hconc2 : c ∈ (' ' :: 'c' :: 'a' :: 'l' :: 's' :: ')' :: ' ' :: 'a' :: 'n' :: 'd' :: ' ' :: []) →
      pyLower c = c := by
    intro h
    fin_cases h <;> decide
  have hconc3 : c ∈ (' ' :: 'c' :: 'a' :: 'l' :: 's' :: ')' :: []) → pyLower c = c := by
    intro h
    fin_cases h <;> decide
  rcases List.mem_append.mp hc with h | h
  · rcases List.mem_append.mp h with h | h
    · rcases List.mem_append.mp h with h | h
      · rcases List.mem_append.mp h with h | h
        · rcases List.mem_append.mp h with h | h
          · rcases List.mem_append.mp h with h | h
            · rcases List.mem_append.mp h with h | h
              · exact hname x hxw h
              · exact hconc1 h
            · exact pyLower_digit (hdad c h)
          · exact hconc2 h
        · exact hname y hyw h
      · exact hconc1 h
    · exact pyLower_digit (hdbd c h)
  · exact hconc3 h

/-! ### The consumption-phrase prefix does not match a benign first word -/

theorem tryConsume_iFirst (lit2 : List Char) (c0 : Char) (t0 Z : List Char)
    (hall : ∀ c ∈ c0 :: t0, lcAlphaB c = true) (hne : c0 :: t0 ≠ ('i' :: [])) :
    tryConsume ('i' :: ' ' :: lit2) ((c0 :: t0) ++ ' ' :: Z) = none := by
  cases t0 with
  | nil =>
    have hc0i : ('i' : Char) ≠ c0 := by
      intro he
      exact hne (by rw [← he])
    simp [tryConsume, List.isPrefixOf, hc0i]
  | cons c1 t1 =>
    have hc1 : lcAlphaB c1 = true := hall c1 (by simp)
    have h1 : (' ' : Char) ≠ c1 := fun he => (alpha_ne_of hc1 ' ' (by decide)) he.symm
    simp [tryConsume, List.isPrefixOf, h1]

theorem tryConsume_ate (c0 : Char) (t0 Z : List Char)
    (hall : ∀ c ∈ c0 :: t0, lcAlphaB c = true)
    (hne : c0 :: t0 ≠ ('a' :: 't' :: 'e' :: [])) :
    tryConsume ('a' :: 't' :: 'e' :: []) ((c0 :: t0) ++ ' ' :: Z) = none := by
  cases t0 with
  | nil => simp [tryConsume, List.isPrefixOf]
  | cons c1 t1 =>
    cases t1 with
    | nil => simp [tryConsume, List.isPrefixOf]
    | cons c2 t2 =>
      cases t2 with
      | nil =>
        by_cases hpre : (('a' :: 't' :: 'e' :: []).isPrefixOf
            ((c0 :: c1 :: c2 :: []) ++ ' ' :: Z)) = true
        · exfalso
          simp only [List.cons_append, List.nil_append, List.isPrefixOf,
                     Bool.and_eq_true, beq_iff_eq] at hpre
          obtain ⟨e0, e1, e2, _⟩ := hpre
          exact hne (by rw [← e0, ← e1, ← e2])
        · unfold tryConsume
          rw [if_neg hpre]
      | cons c3 t3 =>
        have hc3 : lcAlphaB c3 = true := hall c3 (by simp)
        have hc3w : isPyWs c3 = false := alpha_not_ws hc3
        unfold tryConsume
        by_cases hpre : (('a' :: 't' :: 'e' :: []).isPrefixOf
            ((c0 :: c1 :: c2 :: c3 :: t3) ++ ' ' :: Z)) = true
        · rw [if_pos hpre]
          simp only [List.cons_append, List.length_cons, List.length_nil,
                     List.drop_succ_cons, List.drop_zero]
          rw [List.takeWhile_cons_of_neg (by simp [hc3w])]
          simp
        · rw [if_neg hpre]

theorem tryConsume_justate (c0 : Char) (t0 Z : List Char)
    (hall : ∀ c ∈ c0 :: t0, lcAlphaB c = true)
    (hne : c0 :: t0 ≠ ('j' :: 'u' :: 's' :: 't' :: [])) :
    tryConsume ('j' :: 'u' :: 's' :: 't' :: ' ' :: 'a' :: 't' :: 'e' :: [])
      ((c0 :: t0) ++ ' ' :: Z) = none := by
  cases t0 with
  | nil => simp [tryConsume, List.isPrefixOf]
  | cons c1 t1 =>
    cases t1 with
    | nil => simp [tryConsume, List.isPrefixOf]
    | cons c2 t2 =>
      cases t2 with
      | nil => simp [tryConsume, List.isPrefixOf]
      | cons c3 t3 =>
        cases t3 with
        | nil =>
          by_cases hpre : (('j' :: 'u' :: 's' :: 't' :: ' ' :: 'a' :: 't' :: 'e' :: []).isPrefixOf
              ((c0 :: c1 :: c2 :: c3 :: []) ++ ' ' :: Z)) = true
          · exfalso
            simp only [List.cons_append, List.nil_append, List.isPrefixOf,
                       Bool.and_eq_true, beq_iff_eq] at hpre
            obtain ⟨e0, e1, e2, e3, _⟩ := hpre
            exact hne (by rw [← e0, ← e1, ← e2, ← e3])
          · unfold tryConsume
            rw [if_neg hpre]
        | cons c4 t4 =>
          have hc4 : lcAlphaB c4 = true := hall c4 (by simp)
          have h4 : (' ' : Char) ≠ c4 := fun he => (alpha_ne_of hc4 ' ' (by decide)) he.symm
          simp [tryConsume, List.isPrefixOf, h4]

theorem stripPhrase_noop (w0 : List Char) (Z : List Char) (hw : goodWordB w0 = true)
    (h1 : w0 ≠ ('i' :: [])) (h2 : w0 ≠ ('a' :: 't' :: 'e' :: []))
    (h3 : w0 ≠ ('j' :: 'u' :: 's' :: 't' :: [])) :
    stripPrefixPhrase (w0 ++ ' ' :: Z) = w0 ++ ' ' :: Z := by
  obtain ⟨c0, t0, rfl, _⟩ := goodWord_shape hw
  have hall : ∀ c ∈ c0 :: t0, lcAlphaB c = true := goodWord_all hw
  have t1 : tryConsume ('i' :: ' ' :: 'j' :: 'u' :: 's' :: 't' :: ' ' :: 'a' :: 't' :: 'e' :: [])
      ((c0 :: t0) ++ ' ' :: Z) = none := tryConsume_iFirst _ c0 t0 Z hall h1
  have t2 : tryConsume ('i' :: ' ' :: 'a' :: 't' :: 'e' :: [])
      ((c0 :: t0) ++ ' ' :: Z) = none := tryConsume_iFirst _ c0 t0 Z hall h1
  have t3 : tryConsume ('a' :: 't' :: 'e' :: []) ((c0 :: t0) ++ ' ' :: Z) = none :=
    tryConsume_ate c0 t0 Z hall h2
  have t4 : tryConsume ('j' :: 'u' :: 's' :: 't' :: ' ' :: 'a' :: 't' :: 'e' :: [])
      ((c0 :: t0) ++ ' ' :: Z) = none := tryConsume_justate c0 t0 Z hall h3
  simp only [List.cons_append] at t1 t2 t3 t4
  simp [stripPrefixPhrase, t1, t2, t3, t4]

theorem part_stripL (ws : List (List Char)) (hws : ∀ w ∈ ws, goodWordB w = true)
    (hne : ws ≠ []) (da : List Char) :
    stripL (nameW ws ++ ' ' :: '(' :: (da ++ (' ' :: 'c' :: 'a' :: 'l' :: 's' :: ')' :: []))) =
      nameW ws ++ ' ' :: '(' :: (da ++ (' ' :: 'c' :: 'a' :: 'l' :: 's' :: ')' :: [])) := by
  apply stripL_eq_self
  · intro c hc
    obtain ⟨a, t, hna, ha⟩ := nameW_shape ws hws hne
    rw [hna, List.cons_append, List.head?_cons] at hc
    have : a = c := by simpa using hc
    subst this
    exact alpha_not_ws ha
  · intro c hc
    have hP : nameW ws ++ ' ' :: '(' :: (da ++ (' ' :: 'c' :: 'a' :: 'l' :: 's' :: ')' :: [])) =
        (nameW ws ++ ' ' :: '(' :: (da ++ (' ' :: 'c' :: 'a' :: 'l' :: 's' :: []))) ++
          ')' :: [] := by
      simp
    rw [hP, List.getLast?_append_cons] at hc
    have : (')' : Char) = c := by simpa using hc
    subst this
    decide

theorem part_not_empty (ws : List (List Char)) (hws : ∀ w ∈ ws, goodWordB w = true)
    (hne : ws ≠ []) (da : List Char) :
    (nameW ws ++ ' ' :: '(' :: (da ++ (' ' :: 'c' :: 'a' :: 'l' :: 's' :: ')' :: []))).isEmpty =
      false := by
  obtain ⟨a, t, hna, _⟩ := nameW_shape ws hws hne
  rw [hna, List.cons_append]
  rfl

theorem part_searchCal (ws : List (List Char)) (hws : ∀ w ∈ ws, goodWordB w = true)
    (da : List Char) (hne : da ≠ []) (hdig : ∀ c ∈ da, isDigitB c = true) :
    searchCalNum (nameW ws ++ ' ' :: '(' :: (da ++ (' ' :: 'c' :: 'a' :: 'l' :: 's' :: ')' :: []))) =
      some (digitsToNat da) :=
  searchCal_name_paren ws hws da hne hdig ('s' :: ')' :: [])

theorem stripPhrase_compound (x y : List (List Char)) (da db : List Char)
    (hx : goodNameB x = true) :
    stripPrefixPhrase (compoundMsg x y da db) = compoundMsg x y da db := by
  obtain ⟨hxne, hxw, _⟩ := goodName_facts hx
  obtain ⟨w, rest, hxeq, hw1, hw2, hw3⟩ := goodName_headword hx
  subst hxeq
  have hgw : goodWordB w = true := hxw w (by simp)
  cases rest with
  | nil =>
    have hM : compoundMsg (w :: []) y da db =
        w ++ ' ' :: ('(' :: (da ++
          (' ' :: 'c' :: 'a' :: 'l' :: 's' :: ')' :: ' ' :: 'a' :: 'n' :: 'd' :: ' ' ::
            (nameW y ++ ' ' :: '(' ::
              (db ++ (' ' :: 'c' :: 'a' :: 'l' :: 's' :: ')' :: [])))))) := by
      simp [compoundMsg, nameW_single]
    rw [hM, stripPhrase_noop w _ hgw hw1 hw2 hw3]
  | cons w2 r2 =>
    have hM : compoundMsg (w :: w2 :: r2) y da db =
        w ++ ' ' :: (nameW (w2 :: r2) ++ ' ' :: '(' :: (da ++
          (' ' :: 'c' :: 'a' :: 'l' :: 's' :: ')' :: ' ' :: 'a' :: 'n' :: 'd' :: ' ' ::
            (nameW y ++ ' ' :: '(' ::
              (db ++ (' ' :: 'c' :: 'a' :: 'l' :: 's' :: ')' :: [])))))) := by
      simp [compoundMsg, nameW_cons]
    rw [hM, stripPhrase_noop w _ hgw hw1 hw2 hw3]

theorem allDigits_facts {ds : List Char} (h : allDigitsB ds = true) :
    ds ≠ [] ∧ ∀ c ∈ ds, isDigitB c = true := by
  simp only [allDigitsB, Bool.and_eq_true, Bool.not_eq_true', List.all_eq_true] at h
  constructor
  · intro he
    rw [he] at h
    simp at h
  · exact h.2

/-- **C1.** For every compound input `"X (A cals) and Y (B cals)"` — with `X`
and `Y` benign multi-word food names and `A`, `B` positive decimal numerals —
`parse_food_message` takes the `_parse_with_calories` branch and returns a
ParsedFood whose `items` has length 2 with calories `A` and `B` respectively,
whose `total_calories` is `A + B`, whose `food_name` is the two cleaned item
names joined with `" + "`, and whose `quantity` is 2. -/
theorem claim_C1_compound_parse (x y : List (List Char)) (da db : List Char)
    (hx : goodNameB x = true) (hy : goodNameB y = true)
    (hda : allDigitsB da = true) (hdb : allDigitsB db = true)
    (hA : 0 < digitsToNat da) (hB : 0 < digitsToNat db) :
    parse_food_message (compoundMsg x y da db) =
      ⟨nameW x ++ ' ' :: '+' :: ' ' :: nameW y, 2, compoundMsg x y da db,
       some (digitsToNat da + digitsToNat db),
       [⟨nameW x, some (digitsToNat da), 1⟩, ⟨nameW y, some (digitsToNat db), 1⟩]⟩ := by
  obtain ⟨hxne, hxw, _⟩ := goodName_facts hx
  obtain ⟨hyne, hyw, _⟩ := goodName_facts hy
  obtain ⟨hdane, hdad⟩ := allDigits_facts hda
  obtain ⟨hdbne, hdbd⟩ := allDigits_facts hdb
  have hlower : pyLowerL (compoundMsg x y da db) = compoundMsg x y da db :=
    pyLower_compound x y da db hxw hyw hdad hdbd
  have hstrip : stripPrefixPhrase (compoundMsg x y da db) = compoundMsg x y da db :=
    stripPhrase_compound x y da db hx
  have hMsearch : searchCalNum (compoundMsg x y da db) = some (digitsToNat da) := by
    have hM : compoundMsg x y da db =
        nameW x ++ ' ' :: '(' :: (da ++ ' ' :: 'c' :: 'a' :: 'l' ::
          ('s' :: ')' :: ' ' :: 'a' :: 'n' :: 'd' :: ' ' ::
            (nameW y ++ ' ' :: '(' ::
              (db ++ (' ' :: 'c' :: 'a' :: 'l' :: 's' :: ')' :: []))))) := by
      simp [compoundMsg]
    rw [hM]
    exact searchCal_name_paren x hxw da hdane hdad _
  have hsplit := splitSep_compound x y da db hx hy hdane hdad hdbne hdbd
  have hs1 := part_stripL x hxw hxne da
  have hs2 := part_stripL y hyw hyne db
  have he1 := part_not_empty x hxw hxne da
  have he2 := part_not_empty y hyw hyne db
  have hc1 := part_searchCal x hxw da hdane hdad
  have hc2 := part_searchCal y hyw db hdbne hdbd
  have hcl1 := clean_part x hxw hxne da hdane hdad
  have hcl2 := clean_part y hyw hyne db hdbne hdbd
  have hitems : calItems (splitSep (compoundMsg x y da db)) =
      [⟨nameW x, some (digitsToNat da), 1⟩, ⟨nameW y, some (digitsToNat db), 1⟩] := by
    rw [hsplit]
    simp only [calItems, List.filterMap_cons, List.filterMap_nil, hs1, hs2, he1, he2,
               hc1, hc2, hcl1, hcl2]
    simp
  unfold parse_food_message
  rw [hlower, hstrip]
  simp only [hMsearch, Option.isSome_some]
  rw [if_pos trivial]
  unfold parse_with_calories
  simp only [hitems]
  have hjoin : joinPlus
      [(⟨nameW x, some (digitsToNat da), 1⟩ : FoodItem), ⟨nameW y, some (digitsToNat db), 1⟩] =
      nameW x ++ ' ' :: '+' :: ' ' :: nameW y := by
    simp [joinPlus, List.intercalate, List.intersperse]
  have hsum : sumCal
      [(⟨nameW x, some (digitsToNat da), 1⟩ : FoodItem), ⟨nameW y, some (digitsToNat db), 1⟩] =
      digitsToNat da + digitsToNat db := by
    simp [sumCal]
  rw [hjoin, hsum]
  rfl

theorem claim_C1_witness :
    goodNameB (("muffin".data) :: []) = true ∧
    goodNameB (("coke".data) :: []) = true ∧
    allDigitsB ("400".data) = true ∧
    allDigitsB ("150".data) = true ∧
    0 < digitsToNat ("400".data) ∧
    0 < digitsToNat ("150".data) ∧
    parse_food_message (compoundMsg (("muffin".data) :: []) (("coke".data) :: [])
        ("400".data) ("150".data)) =
      ⟨nameW (("muffin".data) :: []) ++ ' ' :: '+' :: ' ' :: nameW (("coke".data) :: []),
       2,
       compoundMsg (("muffin".data) :: []) (("coke".data) :: []) ("400".data) ("150".data),
       some (digitsToNat ("400".data) + digitsToNat ("150".data)),
       [⟨nameW (("muffin".data) :: []), some (digitsToNat ("400".data)), 1⟩,
        ⟨nameW (("coke".data) :: []), some (digitsToNat ("150".data)), 1⟩]⟩ :=
  ⟨by decide, by decide, by decide, by decide, by decide, by decide,
   claim_C1_compound_parse (("muffin".data) :: []) (("coke".data) :: [])
     ("400".data) ("150".data) (by decide) (by decide) (by decide) (by decide)
     (by decide) (by decide)⟩
